import Mathlib

/-!
Verification development for the s-ui configuration reconciliation engine.

The Go sources are shallowly embedded: JSON values become an inductive
type, `json.RawMessage` fields become `RawMsg` (nil bytes, malformed
bytes, or a parsed value), Go maps built by insertion become association
lists with overwrite-on-set semantics, fallible Go functions become
`Except String` computations, and the GORM store becomes explicit lists
of records threaded through each operation.  External collaborators that
are not part of this repository (the live-core adapter, the Warp
provisioning client, the link generator) are passed in as explicit
function parameters, so every theorem quantifies over their behaviour.
-/

namespace SUI

/-- A parsed JSON value.  Go unmarshals every JSON number into `float64`;
the claims under study only compare numbers for positivity and equality
on integral inputs, so numbers are carried as `Int`. -/
inductive JVal where
  | null : JVal
  | bool (b : Bool) : JVal
  | num (n : Int) : JVal
  | str (s : String) : JVal
  | arr (xs : List JVal) : JVal
  | obj (fields : List (String × JVal)) : JVal

/-- A `json.RawMessage` byte slice: nil, bytes that fail to parse, or a
parsed JSON value. -/
inductive RawMsg where
  | nil : RawMsg
  | malformed : RawMsg
  | json (v : JVal) : RawMsg

/-- Look a key up in a decoded JSON object (Go map read). -/
def jlookup {α : Type} (fields : List (String × α)) (k : String) : Option α :=
  match fields with
  | [] => none
  | (k2, v) :: rest => if k2 == k then some v else jlookup rest k

/-- Go map insertion: overwrite the key if present, append otherwise. -/
def jset {α : Type} (fields : List (String × α)) (k : String) (v : α) :
    List (String × α) :=
  match fields with
  | [] => [(k, v)]
  | (k2, v2) :: rest =>
      if k2 == k then (k2, v) :: rest else (k2, v2) :: jset rest k v

/-- Go map deletion (`delete(raw, k)`). -/
def jerase {α : Type} (fields : List (String × α)) (k : String) :
    List (String × α) :=
  match fields with
  | [] => []
  | (k2, v2) :: rest =>
      if k2 == k then jerase rest k else (k2, v2) :: jerase rest k

/-- Type assertion `.(string)` on an `interface{}` value. -/
def JVal.asStr : JVal → Option String
  | .str s => some s
  | _ => none

/-- Type assertion `.(float64)`: succeeds on any JSON number. -/
def JVal.asNum : JVal → Option Int
  | .num n => some n
  | _ => none

/-- Type assertion `.([]interface\x7b\x7d)`. -/
def JVal.asArr : JVal → Option (List JVal)
  | .arr xs => some xs
  | _ => none

/-- Type assertion `.(map[string]interface\x7b\x7d)`. -/
def JVal.asObj : JVal → Option (List (String × JVal))
  | .obj fs => some fs
  | _ => none

/-- Boolean success test for an `Except` result. -/
def exceptOk {ε α : Type} : Except ε α → Bool
  | .ok _ => true
  | .error _ => false

/-! ## Endpoint data model (`src/unnamed/part_000`, second document) -/

/-- The `model.Endpoint` record: canonical fields plus the options
extension bag and the provisioning `ext` bag, both raw documents. -/
structure Endpoint where
  id : Nat
  type : String
  tag : String
  options : RawMsg
  ext : RawMsg

/-- `Endpoint.UnmarshalJSON`: pull `id`, `type`, `tag` and `ext` out of
the raw object, keep every remaining field as the options bag.  A
missing `ext` key marshals Go nil into the JSON literal null, so the
resulting `ext` field is never a nil byte slice. -/
def endpointUnmarshal (data : JVal) : Except String Endpoint :=
  match data with
  | .obj raw =>
      let id : Nat :=
        match jlookup raw "id" with
        | some (.num n) => n.toNat
        | _ => 0
      let raw1 := jerase raw "id"
      let ty : String := ((jlookup raw1 "type").bind JVal.asStr).getD ""
      let raw2 := jerase raw1 "type"
      let tg : String := ((jlookup raw2 "tag").bind JVal.asStr).getD ""
      let raw3 := jerase raw2 "tag"
      let extVal : JVal := (jlookup raw3 "ext").getD .null
      let raw4 := jerase raw3 "ext"
      .ok { id := id, type := ty, tag := tg,
            options := .json (.obj raw4), ext := .json extVal }
  | _ => .error "failed to unmarshal endpoint data"

/-- `extractAllowedIPsFromOptions` (`src/service/endpoints.go`): collect
every `allowed_ips` string of every peer.  A peer without the
`allowed_ips` key is skipped; shape violations are hard errors. -/
def extractAllowedIPs (options : RawMsg) : Except String (List String) :=
  match options with
  | .nil => .ok []
  | .malformed => .error "invalid endpoint options JSON for IP extraction"
  | .json v =>
      match v.asObj with
      | none => .error "invalid endpoint options JSON for IP extraction"
      | some optsData =>
          match jlookup optsData "peers" with
          | none => .ok []
          | some peersRaw =>
              match peersRaw.asArr with
              | none => .error "endpoint options peers field is not an array"
              | some peers => extractFromPeers peers
where
  /-- Walk the peers array collecting allowed-ip strings. -/
  extractFromPeers : List JVal → Except String (List String)
    | [] => .ok []
    | peerRaw :: rest =>
        match peerRaw.asObj with
        | none => .error "peer in endpoint options is not a valid object"
        | some peer =>
            match jlookup peer "allowed_ips" with
            | none => extractFromPeers rest
            | some ipsRaw =>
                match ipsRaw.asArr with
                | none => .error "peer allowed_ips field is not an array"
                | some ips =>
                    match collectStrings ips with
                    | .error e => .error e
                    | .ok ss =>
                        match extractFromPeers rest with
                        | .error e => .error e
                        | .ok tail => .ok (ss ++ tail)
  /-- Each allowed-ips entry must be a string. -/
  collectStrings : List JVal → Except String (List String)
    | [] => .ok []
    | ipRaw :: rest =>
        match ipRaw.asStr with
        | none => .error "peer allowed_ips entry is not a string"
        | some s =>
            match collectStrings rest with
            | .error e => .error e
            | .ok tail => .ok (s :: tail)

/-- Per-peer required-field validation of a WireGuard/Warp endpoint
(`src/service/endpoints.go` lines 101-130). -/
def validatePeer (peer : List (String × JVal)) : Except String Unit :=
  match (jlookup peer "public_key").bind JVal.asStr with
  | none => .error "peer missing public_key"
  | some pk =>
      if pk == "" then .error "peer missing public_key" else
      match (jlookup peer "address").bind JVal.asStr with
      | none => .error "peer missing address"
      | some addr =>
          if addr == "" then .error "peer missing address" else
          match (jlookup peer "port").bind JVal.asNum with
          | none => .error "peer missing or invalid port"
          | some port =>
              if port ≤ 0 then .error "peer missing or invalid port" else
              match (jlookup peer "allowed_ips").bind JVal.asArr with
              | none => .error "peer missing allowed_ips"
              | some allowed =>
                  if allowed.isEmpty then .error "peer missing allowed_ips" else
                  match (jlookup peer "persistent_keepalive").bind JVal.asNum with
                  | none => .error "peer does not have persistent_keepalive set"
                  | some _ => .ok ()

/-- Validate every peer in order. -/
def validatePeerList : List JVal → Except String Unit
  | [] => .ok ()
  | peerRaw :: rest =>
      match peerRaw.asObj with
      | none => .error "peer is not a valid object"
      | some peer =>
          match validatePeer peer with
          | .error e => .error e
          | .ok _ => validatePeerList rest

/-- The WireGuard-specific shape validation: the options bag must carry
a non-empty `peers` array whose entries all validate. -/
def validateWireguardOpts (opts : List (String × JVal)) : Except String Unit :=
  match (jlookup opts "peers").bind JVal.asArr with
  | none => .error "WireGuard endpoint must have at least one peer"
  | some peers =>
      if peers.isEmpty then .error "WireGuard endpoint must have at least one peer"
      else validatePeerList peers

/-- Is this a peer-capable (tunnel-peer family) endpoint type? -/
def isPeerType (ty : String) : Bool :=
  ty == "wireguard" || ty == "warp"

/-- The conflict error message: names the clashing IP string and the
tag of the already-stored endpoint. -/
def conflictMsg (ip tag : String) : String :=
  "Allowed IP " ++ ip ++ " is already used by endpoint tag " ++ tag

/-- Inner double loop of the conflict check: first existing entry that
is string-equal to one of the candidate entries. -/
def findShared (existing newIPs : List String) : Option String :=
  match existing with
  | [] => none
  | ex :: rest => if newIPs.contains ex then some ex else findShared rest newIPs

/-- Walk every other stored endpoint in order; skip records that are not
peer-capable or whose options fail IP extraction; fail on the first
string-equal allowed-ip pair, naming the stored record. -/
def firstConflict (newIPs : List String) : List Endpoint → Except String Unit
  | [] => .ok ()
  | ep :: rest =>
      if isPeerType ep.type then
        match extractAllowedIPs ep.options with
        | .error _ => firstConflict newIPs rest
        | .ok existing =>
            match findShared existing newIPs with
            | some ip => .error (conflictMsg ip ep.tag)
            | none => firstConflict newIPs rest
      else firstConflict newIPs rest

/-- The allowed-ips conflict check (`src/service/endpoints.go` lines
159-200): extract the candidate's entries and compare them by string
equality against every other stored peer-capable record (self excluded
by id when editing). -/
def conflictCheck (store : List Endpoint) (act : String) (e : Endpoint) :
    Except String Unit :=
  if isPeerType e.type then
    match extractAllowedIPs e.options with
    | .error msg => .error ("Failed to extract allowed IPs: " ++ msg)
    | .ok newIPs =>
        if newIPs.isEmpty then .ok ()
        else
          let others :=
            if act == "edit" then store.filter (fun ep => ep.id != e.id)
            else store
          firstConflict newIPs others
  else .ok ()

/-- Duplicate-tag check for endpoints (`src/service/endpoints.go` lines
132-157): on new, no record may hold the tag; on edit, the edited record
must exist and, only if its tag changed, no other record may hold the
new tag. -/
def endpointTagCheck (store : List Endpoint) (act : String) (e : Endpoint) :
    Except String Unit :=
  if act == "new" then
    if (store.filter (fun ep => ep.tag == e.tag)).length > 0 then
      .error ("Endpoint tag " ++ e.tag ++ " already exists")
    else .ok ()
  else
    match store.find? (fun ep => ep.id == e.id) with
    | none => .error "Failed to find existing endpoint"
    | some existing =>
        if existing.tag ≠ e.tag then
          if (store.filter (fun ep => ep.tag == e.tag && ep.id != e.id)).length > 0 then
            .error ("Endpoint tag " ++ e.tag ++ " already exists")
          else .ok ()
        else .ok ()

/-! ## Core adapter oracle (external collaborator, §4.4) -/

/-- Outcome of a core-adapter call.  `notFound` stands for the
distinguished `os.ErrInvalid` condition that remove-calls treat as
non-fatal. -/
inductive CoreRes where
  | ok : CoreRes
  | notFound : CoreRes
  | err (msg : String) : CoreRes

/-- The live-core adapter, passed in as an oracle: whether a core is
running and what each add/remove call would return, keyed by tag. -/
structure CoreOps where
  running : Bool
  removeEndpoint : String → CoreRes
  addEndpoint : String → CoreRes
  removeOutbound : String → CoreRes
  addOutbound : String → CoreRes
  removeInbound : String → CoreRes
  addInbound : String → CoreRes

/-- The Warp peer-provisioning client (`src/service/warp.go`, driven by
network responses that are modelled as an oracle).  `RegisterWarp`
writes only the record's options and ext bags; `SetWarpLicense` reads
the ext bag and mutates nothing. -/
structure WarpOps where
  register : Endpoint → Except String (RawMsg × RawMsg)
  setLicense : String → Endpoint → Except String Unit

/-- `Endpoint.MarshalJSON` (`src/unnamed/part_000`): the per-class config
view.  Canonical fields first (the legacy type name warp is rewritten to
wireguard), then the `ext` bag if non-nil, then every options field
merged over them.  Malformed raw bytes anywhere make the final
`json.Marshal` fail. -/
def endpointMarshal (e : Endpoint) : Except String (List (String × JVal)) :=
  let ty := if e.type == "warp" then "wireguard" else e.type
  let combined := jset (jset [] "type" (.str ty)) "tag" (.str e.tag)
  match e.ext with
  | .malformed => .error "json: error calling MarshalJSON (invalid ext)"
  | extRaw =>
      let combined :=
        match extRaw with
        | .json v => jset combined "ext" v
        | _ => combined
      match e.options with
      | .nil => .ok combined
      | .malformed => .error "invalid options JSON"
      | .json v =>
          match v.asObj with
          | none => .error "invalid options JSON"
          | some fs => .ok (fs.foldl (fun acc kv => jset acc kv.1 kv.2) combined)

/-- GORM `tx.Save`: update the row matching the primary key, or insert
with a fresh auto-increment id when the key is zero. -/
def upsertEndpoint (store : List Endpoint) (e : Endpoint) : List Endpoint :=
  if e.id == 0 then
    let fresh := (store.map Endpoint.id).foldl max 0 + 1
    store ++ [{ e with id := fresh }]
  else if store.any (fun ep => ep.id == e.id) then
    store.map (fun ep => if ep.id == e.id then e else ep)
  else store ++ [e]

/-- Read the stored license key of an endpoint record
(`json_extract(ext, license_key)` pluck): empty when absent. -/
def pluckLicense (store : List Endpoint) (id : Nat) : String :=
  match store.find? (fun ep => ep.id == id) with
  | none => ""
  | some ep =>
      match ep.ext with
      | .json (.obj fs) => ((jlookup fs "license_key").bind JVal.asStr).getD ""
      | _ => ""

/-- Warp-specific handling of `EndpointService.Save`: register on new,
reconcile the license on edit. -/
def warpHandle (warp : WarpOps) (store : List Endpoint) (act : String)
    (e : Endpoint) : Except String Endpoint :=
  if e.type == "warp" then
    if act == "new" then
      match warp.register e with
      | .error msg => .error msg
      | .ok (newOpts, newExt) => .ok { e with options := newOpts, ext := newExt }
    else
      match warp.setLicense (pluckLicense store e.id) e with
      | .error msg => .error ("Failed to set Warp license: " ++ msg)
      | .ok _ => .ok e
  else .ok e

/-- Core patching step of `EndpointService.Save` (lines 227-269): when a
core is running, marshal the record, on edit remove the old tag when the
tag or type changed (not-found tolerated), then add the new config. -/
def endpointCoreStep (core : CoreOps) (store : List Endpoint) (act : String)
    (e : Endpoint) : Except String Unit :=
  if core.running then
    match endpointMarshal e with
    | .error msg => .error msg
    | .ok _ =>
        let oldTag :=
          if act == "edit" then
            match store.find? (fun ep => ep.id == e.id) with
            | some old => old.tag
            | none => ""
          else ""
        let oldType :=
          if act == "edit" then
            match store.find? (fun ep => ep.id == e.id) with
            | some old => old.type
            | none => ""
          else ""
        let removeStep : Except String Unit :=
          if act == "edit" && oldTag != "" && (oldTag != e.tag || oldType != e.type) then
            match core.removeEndpoint oldTag with
            | .err msg => .error ("Failed to remove old endpoint from core: " ++ msg)
            | _ => .ok ()
          else .ok ()
        match removeStep with
        | .error msg => .error msg
        | .ok _ =>
            match core.addEndpoint e.tag with
            | .err msg => .error ("Failed to add endpoint to core: " ++ msg)
            | _ => .ok ()
  else .ok ()

/-- The required-shape validation of a candidate endpoint
(`src/service/endpoints.go` lines 91-130): peer-capable types must carry
an options object with a valid non-empty peers array. -/
def endpointOptsCheck (e : Endpoint) : Except String Unit :=
  if isPeerType e.type then
    match e.options with
    | .nil => .error "Endpoint options are required for wireguard/warp types"
    | .malformed => .error "Invalid endpoint options JSON"
    | .json v =>
        match v.asObj with
        | none => .error "Invalid endpoint options JSON"
        | some opts => validateWireguardOpts opts
  else .ok ()

/-- `EndpointService.Save` (`src/service/endpoints.go` lines 73-295): the
full new/edit/del pipeline over the endpoint table.  Returns the updated
table; an error leaves the caller to roll the transaction back. -/
def endpointSave (warp : WarpOps) (core : CoreOps) (store : List Endpoint)
    (act : String) (data : JVal) : Except String (List Endpoint) :=
  if act == "new" || act == "edit" then
    match endpointUnmarshal data with
    | .error e => .error e
    | .ok ep0 =>
        if ep0.type == "" then .error "Endpoint type is required" else
        if ep0.tag == "" then .error "Endpoint tag is required" else
        match endpointOptsCheck ep0 with
        | .error e => .error e
        | .ok _ =>
            match endpointTagCheck store act ep0 with
            | .error e => .error e
            | .ok _ =>
                match conflictCheck store act ep0 with
                | .error e => .error e
                | .ok _ =>
                    match warpHandle warp store act ep0 with
                    | .error e => .error e
                    | .ok ep1 =>
                        match endpointCoreStep core store act ep1 with
                        | .error e => .error e
                        | .ok _ => .ok (upsertEndpoint store ep1)
  else if act == "del" then
    match data.asStr with
    | none => .error "failed to unmarshal tag"
    | some tag =>
        let coreStep : Except String Unit :=
          if core.running then
            match core.removeEndpoint tag with
            | .err msg => .error msg
            | _ => .ok ()
          else .ok ()
        match coreStep with
        | .error e => .error e
        | .ok _ => .ok (store.filter (fun ep => ep.tag != tag))
  else .error ("unknown action: " ++ act)

/-! ## Address-range intersection (specification side)

The spec (§4.2) demands rejection on any non-empty intersection of
advertised address ranges.  The following definitions formalise that
relation for IPv4 CIDR strings; they follow the spec's words and are
used only to compare the spec's demand against the code's behaviour. -/

/-- Split a character list on a separator. -/
def splitOnChar (sep : Char) (cs : List Char) : List (List Char) :=
  cs.foldr
    (fun ch acc =>
      if ch == sep then [] :: acc
      else
        match acc with
        | g :: gs => (ch :: g) :: gs
        | [] => [[ch]])
    [[]]

/-- Parse a non-empty list of decimal digits. -/
def digitsToNat : List Char → Option Nat
  | [] => none
  | cs =>
      if cs.all Char.isDigit then
        some (cs.foldl (fun acc c => acc * 10 + (c.toNat - 48)) 0)
      else none

/-- Parse a dotted-quad IPv4 address into its 32-bit integer value. -/
def parseIPv4 (cs : List Char) : Option Nat :=
  match splitOnChar (Char.ofNat 46) cs with
  | [a, b, c, d] =>
      match digitsToNat a, digitsToNat b, digitsToNat c, digitsToNat d with
      | some x, some y, some z, some w =>
          if x ≤ 255 && y ≤ 255 && z ≤ 255 && w ≤ 255 then
            some (((x * 256 + y) * 256 + z) * 256 + w)
          else none
      | _, _, _, _ => none
  | _ => none

/-- Modelled from the spec: parse an IPv4 CIDR range string
(address and mask-bit count). -/
def parseCIDR (s : String) : Option (Nat × Nat) :=
  match splitOnChar (Char.ofNat 47) s.data with
  | [ipPart, maskPart] =>
      match parseIPv4 ipPart, digitsToNat maskPart with
      | some ip, some bits => if bits ≤ 32 then some (ip, bits) else none
      | _, _ => none
  | _ => none

/-- Modelled from the spec: two advertised IPv4 address ranges have a
non-empty intersection exactly when they agree on the first
`min mask1 mask2` bits (§4.2 "any non-empty intersection"). -/
def cidrIntersects (s1 s2 : String) : Bool :=
  match parseCIDR s1, parseCIDR s2 with
  | some (ip1, m1), some (ip2, m2) =>
      let m := min m1 m2
      ip1 / 2 ^ (32 - m) == ip2 / 2 ^ (32 - m)
  | _, _ => false

/-! ## Outbound data model (`src/unnamed/part_000`, first document) -/

/-- The `model.Outbound` record. -/
structure Outbound where
  id : Nat
  type : String
  tag : String
  options : RawMsg

/-- `Outbound.UnmarshalJSON`: id must be numeric when present and
non-null, type defaults to empty, tag is required, non-empty and a
string; the remaining fields become the options bag (nil when none
remain). -/
def outboundUnmarshal (data : JVal) : Except String Outbound :=
  match data with
  | .obj raw =>
      let idStep : Except String Nat :=
        match jlookup raw "id" with
        | none => .ok 0
        | some (.num n) => .ok n.toNat
        | some .null => .ok 0
        | some _ => .error "id field is not a valid number"
      match idStep with
      | .error e => .error e
      | .ok id =>
          let raw1 := jerase raw "id"
          let ty : String := ((jlookup raw1 "type").bind JVal.asStr).getD ""
          let raw2 := jerase raw1 "type"
          match jlookup raw2 "tag" with
          | none => .error "tag field is missing"
          | some tagVal =>
              match tagVal.asStr with
              | none => .error "tag field is not a string"
              | some tg =>
                  if tg == "" then .error "tag field cannot be empty"
                  else
                    let raw3 := jerase raw2 "tag"
                    let opts : RawMsg :=
                      if raw3.isEmpty then .nil else .json (.obj raw3)
                    .ok { id := id, type := ty, tag := tg, options := opts }
  | _ => .error "failed to unmarshal outbound data"

/-- `Outbound.MarshalJSON`: canonical `type` and `tag` (no aliasing for
outbounds), then the options fields merged over them; malformed or
non-object options fail the marshal. -/
def outboundMarshal (o : Outbound) : Except String (List (String × JVal)) :=
  let combined := jset (jset [] "type" (.str o.type)) "tag" (.str o.tag)
  match o.options with
  | .nil => .ok combined
  | .malformed => .error "invalid options JSON"
  | .json v =>
      match v.asObj with
      | none => .error "invalid options JSON"
      | some fs => .ok (fs.foldl (fun acc kv => jset acc kv.1 kv.2) combined)

/-- GORM `tx.Save` for outbounds. -/
def upsertOutbound (store : List Outbound) (o : Outbound) : List Outbound :=
  if o.id == 0 then
    let fresh := (store.map Outbound.id).foldl max 0 + 1
    store ++ [{ o with id := fresh }]
  else if store.any (fun ob => ob.id == o.id) then
    store.map (fun ob => if ob.id == o.id then o else ob)
  else store ++ [o]

/-- Duplicate-tag check for outbounds (`src/unnamed/part_002` lines
1509-1521): count same-tag rows, excluding the edited id on edit. -/
def outboundTagCheck (store : List Outbound) (act : String) (o : Outbound) :
    Except String Unit :=
  let dup :=
    if act == "edit" then
      store.filter (fun ob => ob.tag == o.tag && ob.id != o.id)
    else store.filter (fun ob => ob.tag == o.tag)
  if dup.length > 0 then
    .error ("outbound tag " ++ o.tag ++ " already exists")
  else .ok ()

/-- `OutboundService.Save` (`src/unnamed/part_002` lines 1488-1583).
On edit with a running core the removal of the old tag is best-effort
(any failure is only logged); the add step is a hard failure. -/
def outboundSave (core : CoreOps) (store : List Outbound) (act : String)
    (data : JVal) : Except String (List Outbound) :=
  if act == "new" || act == "edit" then
    match outboundUnmarshal data with
    | .error e => .error ("failed to unmarshal outbound data for save: " ++ e)
    | .ok ob =>
        if ob.tag == "" then .error "outbound tag cannot be empty" else
        match outboundTagCheck store act ob with
        | .error e => .error e
        | .ok _ =>
            let coreStep : Except String Unit :=
              if core.running then
                match outboundMarshal ob with
                | .error e => .error ("failed to marshal outbound for core operation: " ++ e)
                | .ok _ =>
                    -- on edit the old tag is removed first; the call's result is
                    -- only logged, never surfaced
                    let oldTag :=
                      if act == "edit" then
                        match store.find? (fun ob2 => ob2.id == ob.id) with
                        | some old => old.tag
                        | none => ""
                      else ""
                    let _ :=
                      if act == "edit" && oldTag != "" then
                        core.removeOutbound oldTag
                      else .ok
                    match core.addOutbound ob.tag with
                    | .err msg => .error ("failed to add outbound to core: " ++ msg)
                    | _ => .ok ()
              else .ok ()
            match coreStep with
            | .error e => .error e
            | .ok _ => .ok (upsertOutbound store ob)
  else if act == "del" then
    match data.asStr with
    | none => .error "failed to unmarshal tag for delete"
    | some tag =>
        if tag == "" then .error "tag for delete cannot be empty"
        else
          -- core removal is best-effort: failures are only logged
          let _ := if core.running then core.removeOutbound tag else .ok
          .ok (store.filter (fun ob => ob.tag != tag))
  else .error ("unknown action: " ++ act)

/-! ## Endpoint list view (`EndpointService.GetAll`) -/

/-- A value of the untyped `map[string]interface\x7b\x7d` built by the
list view: a canonical numeric id, a canonical string, or a raw JSON
field taken from a record's bags. -/
inductive ViewVal where
  | vnum (n : Nat) : ViewVal
  | vstr (s : String) : ViewVal
  | vraw (r : RawMsg) : ViewVal

/-- `EndpointService.GetAll`, per record (`src/service/endpoints.go`
lines 26-52): insert the options fields first (skipped wholesale when
they do not decode to an object), then set the canonical `id`, `type`,
`tag` and `ext` entries, overwriting any same-named options fields.
The stored type is reported as-is. -/
def endpointView (e : Endpoint) : List (String × ViewVal) :=
  let base : List (String × ViewVal) :=
    match e.options with
    | .json (.obj fs) =>
        fs.foldl (fun acc kv => jset acc kv.1 (ViewVal.vraw (.json kv.2))) []
    | _ => []
  jset (jset (jset (jset base "id" (.vnum e.id))
    "type" (.vstr e.type)) "tag" (.vstr e.tag)) "ext" (.vraw e.ext)

/-- `EndpointService.GetAllConfig`: serialize every stored endpoint
through the per-class config view; any marshal failure fails the whole
listing. -/
def endpointGetAllConfig : List Endpoint → Except String (List (List (String × JVal)))
  | [] => .ok []
  | e :: rest =>
      match endpointMarshal e with
      | .error msg => .error msg
      | .ok j =>
          match endpointGetAllConfig rest with
          | .error msg => .error msg
          | .ok tail => .ok (j :: tail)

/-- `OutboundService.GetAllConfig` (`src/unnamed/part_002` lines
1469-1486): serialize every stored outbound, but skip (log-only) any
record whose marshal fails. -/
def outboundGetAllConfig : List Outbound → List (List (String × JVal))
  | [] => []
  | o :: rest =>
      match outboundMarshal o with
      | .error _ => outboundGetAllConfig rest
      | .ok j => j :: outboundGetAllConfig rest

/-! ## Inbound data model and save (`src/unnamed/part_003`)

The `model.Inbound` struct itself is not under `src/`; its record shape
is modelled from the spec (§3): canonical id, protocol type, unique tag,
optional TLS-association id, the extension bag, and the derived out-json
cache.  The service code operating on it is embedded from
`src/unnamed/part_003`. -/

/-- Look a record up by numeric id in an id-keyed table. -/
def jnlookup {α : Type} (rows : List (Nat × α)) (k : Nat) : Option α :=
  match rows with
  | [] => none
  | (k2, v) :: rest => if k2 == k then some v else jnlookup rest k

/-- Modelled from the spec: the `model.Inbound` record (§3 Inbound);
the struct declaration is not under src/. -/
structure Inbound where
  id : Nat
  type : String
  tag : String
  tlsId : Nat
  tls : JVal
  options : RawMsg
  outJson : RawMsg

/-- Modelled from the spec: `model.Inbound.UnmarshalJSON` (not under
src/), following the shared canonical-fields-plus-extension-bag pattern
of §3 as realised for Outbound and Endpoint in `src/unnamed/part_000`. -/
def inboundUnmarshal (data : JVal) : Except String Inbound :=
  match data with
  | .obj raw =>
      let id : Nat :=
        match jlookup raw "id" with
        | some (.num n) => n.toNat
        | _ => 0
      let raw1 := jerase raw "id"
      let ty : String := ((jlookup raw1 "type").bind JVal.asStr).getD ""
      let raw2 := jerase raw1 "type"
      let tg : String := ((jlookup raw2 "tag").bind JVal.asStr).getD ""
      let raw3 := jerase raw2 "tag"
      let tlsId : Nat :=
        match jlookup raw3 "tls_id" with
        | some (.num n) => n.toNat
        | _ => 0
      let raw4 := jerase raw3 "tls_id"
      .ok { id := id, type := ty, tag := tg, tlsId := tlsId,
            tls := .null, options := .json (.obj raw4), outJson := .nil }
  | _ => .error "failed to unmarshal inbound data"

/-- Modelled from the spec: GORM `tx.Save` on the inbound table with the
store-level unique-tag constraint (§6 Entity Store "per-class unique-tag
enforcement"); the constraint declaration is not under src/.  Returns
the stored record's id. -/
def upsertInbound (store : List Inbound) (i : Inbound) :
    Except String (List Inbound × Nat) :=
  if i.id == 0 then
    if store.any (fun inb => inb.tag == i.tag) then
      .error "UNIQUE constraint failed: inbounds.tag"
    else
      let fresh := (store.map Inbound.id).foldl max 0 + 1
      .ok (store ++ [{ i with id := fresh }], fresh)
  else if store.any (fun inb => inb.tag == i.tag && inb.id != i.id) then
    .error "UNIQUE constraint failed: inbounds.tag"
  else if store.any (fun inb => inb.id == i.id) then
    .ok (store.map (fun inb => if inb.id == i.id then i else inb), i.id)
  else .ok (store ++ [i], i.id)

/-- A live-core adapter call recorded while an inbound save runs, so
theorems can speak about which patch steps were reached. -/
inductive CoreCall where
  | removeInb (tag : String) : CoreCall
  | addInb (tag : String) : CoreCall

/-- The helpers of the inbound save pipeline whose code lives outside
src/ (`util.FillOutJson`, `model.Inbound.MarshalJSON`) or reads the
client table through raw SQL (`addUsers`, `initUsers`); they are passed
in as oracles. -/
structure InbOracles where
  fillOutJson : Inbound → String → Except String Inbound
  marshal : Inbound → Except String JVal
  addUsers : JVal → Nat → String → Except String JVal
  initUsers : JVal → String → String → Except String JVal

/-- `InboundService.Save` (`src/unnamed/part_003` lines 119-211).
On new/edit: unmarshal, resolve TLS material, regenerate the out-json
cache, persist, and — when a core is running — on edit remove the
previous tag (a failure other than the not-found condition aborts the
save), then marshal, inject users, and add the new config.  Returns the
trace of core calls together with the result. -/
def inboundSave (p : InbOracles) (core : CoreOps) (tlsStore : List (Nat × JVal))
    (store : List Inbound) (act : String) (data : JVal)
    (initUserIds hostname : String) :
    List CoreCall × Except String (List Inbound × Nat) :=
  if act == "new" || act == "edit" then
    match inboundUnmarshal data with
    | .error e => ([], .error e)
    | .ok inb0 =>
        let inb1 :=
          if inb0.tlsId > 0 then
            { inb0 with tls := (jnlookup tlsStore inb0.tlsId).getD .null }
          else inb0
        match p.fillOutJson inb1 hostname with
        | .error e => ([], .error e)
        | .ok inb2 =>
            match upsertInbound store inb2 with
            | .error e => ([], .error e)
            | .ok (store2, savedId) =>
                let inb3 := { inb2 with id := savedId }
                if core.running then
                  -- the old tag is plucked after the row was saved, so it
                  -- reads back the freshly written tag
                  let oldTag :=
                    if act == "edit" then
                      match store2.find? (fun i => i.id == savedId) with
                      | some row => row.tag
                      | none => ""
                    else ""
                  let trace0 :=
                    if act == "edit" && oldTag != "" then [CoreCall.removeInb oldTag]
                    else []
                  let removeStep : Except String Unit :=
                    if act == "edit" && oldTag != "" then
                      match core.removeInbound oldTag with
                      | .err msg => .error ("failed to remove old inbound from core: " ++ msg)
                      | _ => .ok ()
                    else .ok ()
                  match removeStep with
                  | .error e => (trace0, .error e)
                  | .ok _ =>
                      match p.marshal inb3 with
                      | .error e => (trace0, .error e)
                      | .ok doc0 =>
                          let docStep :=
                            if act == "edit" then p.addUsers doc0 savedId inb3.type
                            else p.initUsers doc0 initUserIds inb3.type
                          match docStep with
                          | .error e => (trace0, .error e)
                          | .ok _ =>
                              let trace1 := trace0 ++ [CoreCall.addInb inb3.tag]
                              match core.addInbound inb3.tag with
                              | .err msg => (trace1, .error msg)
                              | _ => (trace1, .ok (store2, savedId))
                else ([], .ok (store2, savedId))
  else if act == "del" then
    match data.asStr with
    | none => ([], .error "failed to unmarshal tag")
    | some tag =>
        let trace0 := if core.running then [CoreCall.removeInb tag] else []
        let removeStep : Except String Unit :=
          if core.running then
            match core.removeInbound tag with
            | .err msg => .error msg
            | _ => .ok ()
          else .ok ()
        match removeStep with
        | .error e => (trace0, .error e)
        | .ok _ =>
            let id :=
              match store.find? (fun i => i.tag == tag) with
              | some row => row.id
              | none => 0
            (trace0, .ok (store.filter (fun i => i.tag != tag), id))
  else ([], .error ("unknown action: " ++ act))

/-! ## Client data model and link synchronizer (`src/unnamed/part_002`) -/

/-- Modelled from the spec: the `model.Client` record (§3 Client);
the struct declaration is not under src/.  Only the fields the embedded
service code reads are carried. -/
structure Client where
  id : Nat
  enable : Bool
  name : String
  inbounds : RawMsg
  links : RawMsg
  config : RawMsg

/-- Modelled from the spec: the standard struct decode of a client
payload (`json.Unmarshal` into `model.Client`, struct not under src/):
canonical fields plus the raw `inbounds`, `links` and `config`
documents. -/
def clientUnmarshal (data : JVal) : Except String Client :=
  match data with
  | .obj raw =>
      let idStep : Except String Nat :=
        match jlookup raw "id" with
        | none => .ok 0
        | some .null => .ok 0
        | some (.num n) => .ok n.toNat
        | some _ => .error "cannot unmarshal client id"
      match idStep with
      | .error e => .error e
      | .ok id =>
          let enStep : Except String Bool :=
            match jlookup raw "enable" with
            | none => .ok false
            | some .null => .ok false
            | some (.bool b) => .ok b
            | some _ => .error "cannot unmarshal client enable"
          match enStep with
          | .error e => .error e
          | .ok en =>
              let nmStep : Except String String :=
                match jlookup raw "name" with
                | none => .ok ""
                | some .null => .ok ""
                | some (.str s) => .ok s
                | some _ => .error "cannot unmarshal client name"
              match nmStep with
              | .error e => .error e
              | .ok nm =>
                  let rawField (k : String) : RawMsg :=
                    match jlookup raw k with
                    | none => .nil
                    | some v => .json v
                  .ok { id := id, enable := en, name := nm,
                        inbounds := rawField "inbounds",
                        links := rawField "links",
                        config := rawField "config" }
  | _ => .error "failed to unmarshal client data"

/-- A connection descriptor as the service sees it: a Go
`map[string]string`.  Reading an absent key yields the empty string. -/
def lget (l : List (String × String)) (k : String) : String :=
  (jlookup l k).getD ""

/-- Decode a client's raw `links` document into a descriptor list
(`json.Unmarshal` into `[]map[string]string`); a nil document stays an
empty list, JSON null decodes to an empty list, anything else must be an
array of objects with string values. -/
def parseLinks (r : RawMsg) : Except String (List (List (String × String))) :=
  match r with
  | .nil => .ok []
  | .malformed => .error "failed to unmarshal client links"
  | .json .null => .ok []
  | .json (.arr xs) => parseEach xs
  | .json _ => .error "failed to unmarshal client links"
where
  /-- Decode one descriptor object. -/
  parseOne : List (String × JVal) → Except String (List (String × String))
    | [] => .ok []
    | (k, v) :: rest =>
        match v.asStr with
        | none => .error "failed to unmarshal client links"
        | some s =>
            match parseOne rest with
            | .error e => .error e
            | .ok tail => .ok ((k, s) :: tail)
  /-- Decode the descriptor array. -/
  parseEach : List JVal → Except String (List (List (String × String)))
    | [] => .ok []
    | x :: rest =>
        match x.asObj with
        | none => .error "failed to unmarshal client links"
        | some fs =>
            match parseOne fs with
            | .error e => .error e
            | .ok l =>
                match parseEach rest with
                | .error e => .error e
                | .ok tail => .ok (l :: tail)

/-- Re-encode a descriptor list into the stored raw document. -/
def marshalLinks (ls : List (List (String × String))) : RawMsg :=
  .json (.arr (ls.map (fun l => .obj (l.map (fun kv => (kv.1, .str kv.2))))))

/-- Decode a client's raw `inbounds` document into a list of inbound
ids. -/
def parseInboundIds (r : RawMsg) : Except String (List Nat) :=
  match r with
  | .nil => .error "unexpected end of JSON input"
  | .malformed => .error "failed to unmarshal client inbounds"
  | .json .null => .ok []
  | .json (.arr xs) => parseEach xs
  | .json _ => .error "failed to unmarshal client inbounds"
where
  /-- Each entry must be a number. -/
  parseEach : List JVal → Except String (List Nat)
    | [] => .ok []
    | x :: rest =>
        match x.asNum with
        | none => .error "failed to unmarshal client inbounds"
        | some n =>
            match parseEach rest with
            | .error e => .error e
            | .ok tail => .ok (n.toNat :: tail)

/-- Re-encode an inbound-id list into the stored raw document. -/
def marshalInboundIds (ids : List Nat) : RawMsg :=
  .json (.arr (ids.map (fun n => .num (Int.ofNat n))))

/-- The descriptor built for a generated link: origin local, remarked
with the inbound's tag. -/
def localLink (tag uri : String) : List (String × String) :=
  [("remark", tag), ("type", "local"), ("uri", uri)]

/-- The generated-descriptor accumulation loop of
`updateLinksWithFixedInbounds` (`src/unnamed/part_002` lines 433-442),
followed by the pass that keeps only the non-local previous descriptors
(lines 445-449).  `linkGen` is `util.LinkGenerator`, whose code lives
outside src/ and is passed in as an oracle. -/
def regenLinks (linkGen : RawMsg → Inbound → String → List String)
    (hostname : String) (inbounds : List Inbound) (config : RawMsg)
    (old : List (List (String × String))) : List (List (String × String)) :=
  let gen := inbounds.foldl
    (fun acc inbound => acc ++ (linkGen config inbound hostname).map (localLink inbound.tag))
    []
  gen ++ old.filter (fun clientLink => lget clientLink "type" != "local")

/-- Modelled from the spec: the §4.3 `Regenerate` contract stated in the
spec's own words — newly generated local descriptors in inbound order,
then every previous non-local descriptor verbatim in original order. -/
def specRegenerate (linkGen : RawMsg → Inbound → String → List String)
    (hostname : String) (inbounds : List Inbound) (config : RawMsg)
    (old : List (List (String × String))) : List (List (String × String)) :=
  (inbounds.flatMap (fun inbound => (linkGen config inbound hostname).map (localLink inbound.tag)))
    ++ old.filter (fun d => lget d "type" != "local")

/-- `ClientService.updateLinksWithFixedInbounds`
(`src/unnamed/part_002` lines 411-457): select the linked inbounds that
support links, then rewrite each client's descriptor document. -/
def updateLinksWithFixedInbounds
    (linkGen : RawMsg → Inbound → String → List String)
    (typeWithLink : List String) (inbStore : List Inbound)
    (clients : List Client) (inbounIds : List Nat) (hostname : String) :
    Except String (List Client) :=
  let inbounds :=
    if inbounIds.isEmpty then []
    else inbStore.filter
      (fun i => inbounIds.contains i.id && typeWithLink.contains i.type)
  updateAll inbounds clients
where
  /-- Rewrite every client in order. -/
  updateAll (inbounds : List Inbound) :
      List Client → Except String (List Client)
    | [] => .ok []
    | c :: rest =>
        match parseLinks c.links with
        | .error e => .error e
        | .ok old =>
            let newLinks := regenLinks linkGen hostname inbounds c.config old
            match updateAll inbounds rest with
            | .error e => .error e
            | .ok tail => .ok ({ c with links := marshalLinks newLinks } :: tail)

/-- The per-client descriptor rewrite of
`ClientService.UpdateClientsOnInboundDelete` (`src/unnamed/part_002`
lines 556-560): keep exactly the descriptors whose remark differs from
the deleted inbound's tag. -/
def linksOnInboundDelete (tag : String)
    (old : List (List (String × String))) : List (List (String × String)) :=
  old.filter (fun clientLink => lget clientLink "remark" != tag)

/-- The full per-client update of `UpdateClientsOnInboundDelete`
(lines 530-568): drop the deleted id from the client's inbound set and
apply the descriptor rewrite. -/
def clientOnInboundDelete (id : Nat) (tag : String) (c : Client) :
    Except String Client :=
  let inbStep : Except String (List Nat) :=
    match c.inbounds with
    | .nil => .ok []
    | r => parseInboundIds r
  match inbStep with
  | .error e => .error e
  | .ok clientInbounds =>
      let newClientInbounds := clientInbounds.filter (fun i => i != id)
      let lnkStep : Except String (List (List (String × String))) :=
        match c.links with
        | .nil => .ok []
        | r => parseLinks r
      match lnkStep with
      | .error e => .error e
      | .ok clientLinks =>
          .ok { c with inbounds := marshalInboundIds newClientInbounds,
                       links := marshalLinks (linksOnInboundDelete tag clientLinks) }

/-- Does this client's link set contain the given inbound id (the
`json_each` selection query)? -/
def clientLinkedTo (c : Client) (id : Nat) : Bool :=
  match parseInboundIds c.inbounds with
  | .ok ids => ids.contains id
  | .error _ => false

/-- `ClientService.UpdateClientsOnInboundDelete`
(`src/unnamed/part_002` lines 522-571) over the whole client table:
every client linked to the deleted inbound is rewritten in place. -/
def updateClientsOnInboundDelete (store : List Client) (id : Nat)
    (tag : String) : Except String (List Client) :=
  match store with
  | [] => .ok []
  | c :: rest =>
      let step : Except String Client :=
        if clientLinkedTo c id then clientOnInboundDelete id tag c else .ok c
      match step with
      | .error e => .error e
      | .ok c2 =>
          match updateClientsOnInboundDelete rest id tag with
          | .error e => .error e
          | .ok tail => .ok (c2 :: tail)

/-! ## Setting registry and update (`src/unnamed/part_002`, third document) -/

/-- `strconv.Atoi`: optional sign, at least one digit, digits only,
64-bit range. -/
def parseGoInt (s : String) : Option Int :=
  match s.data with
  | [] => none
  | c :: rest =>
      let (neg, digits) :=
        if c == Char.ofNat 45 then (true, rest)
        else if c == Char.ofNat 43 then (false, rest)
        else (false, c :: rest)
      match digitsToNat digits with
      | none => none
      | some n =>
          let v : Int := if neg then -(Int.ofNat n) else Int.ofNat n
          if -(2 ^ 63) ≤ v && v < 2 ^ 63 then some v else none

/-- `strconv.ParseBool`: the exact accepted spellings. -/
def parseGoBool (s : String) : Option Bool :=
  if s == "1" || s == "t" || s == "T" || s == "TRUE" || s == "true" || s == "True"
  then some true
  else if s == "0" || s == "f" || s == "F" || s == "FALSE" || s == "false" || s == "False"
  then some false
  else none

/-- Path normalization of the `webPath`/`subPath` cases: ensure a
leading and a trailing slash. -/
def ensureSlashes (s : String) : String :=
  let slash := Char.ofNat 47
  let cs := s.data
  let cs1 :=
    match cs with
    | [] => [slash]
    | c :: _ => if c == slash then cs else slash :: cs
  let cs2 :=
    if cs1.getLast? == some slash then cs1 else cs1 ++ [slash]
  ⟨cs2⟩

/-- The keys of `defaultValueMap`: the fixed settings registry. -/
def defaultKeys : List String :=
  ["webListen", "webDomain", "webPort", "secret", "webCertFile", "webKeyFile",
   "webPath", "webURI", "sessionMaxAge", "trafficAge", "timeLocation",
   "subListen", "subPort", "subPath", "subDomain", "subCertFile", "subKeyFile",
   "subUpdates", "subEncode", "subShowInfo", "subURI", "subJsonExt",
   "config", "version", "panelLanguage", "panelTheme"]

/-- The settings table: flat key to string value pairs. -/
abbrev Settings := List (String × String)

/-- `SettingService.saveSetting`: update the row if the key exists,
create it otherwise. -/
def saveSetting (settings : Settings) (key value : String) : Settings :=
  jset settings key value

/-- `SettingService.Update` (`src/unnamed/part_002` lines 863-1003):
per-key validation and type coercion before the upsert.  Integer keys
and boolean keys fail hard on parse errors, path keys are normalized to
leading and trailing slashes, the time-location key fails hard when
`time.LoadLocation` (the oracle `locOk`) rejects the value, keys outside
the registry are rejected, and every other registry key passes through
as a string. -/
def settingUpdate (locOk : String → Bool) (settings : Settings)
    (key value : String) : Except String Settings :=
  let intCase : Except String String :=
    match parseGoInt value with
    | none => .error ("failed to parse " ++ key ++ " to int")
    | some i => .ok (toString i)
  let boolCase : Except String String :=
    match parseGoBool value with
    | none => .error ("failed to parse " ++ key ++ " to bool")
    | some b => .ok (if b then "true" else "false")
  let valueStep : Except String String :=
    if key == "webPort" || key == "sessionMaxAge" || key == "trafficAge"
        || key == "subPort" || key == "subUpdates" then intCase
    else if key == "subEncode" || key == "subShowInfo" then boolCase
    else if key == "webPath" || key == "subPath" then .ok (ensureSlashes value)
    else if key == "timeLocation" then
      if locOk value then .ok value
      else .error ("invalid time location " ++ value)
    else if key == "webListen" || key == "webDomain" || key == "webCertFile"
        || key == "webKeyFile" || key == "webURI" || key == "secret"
        || key == "subListen" || key == "subDomain" || key == "subCertFile"
        || key == "subKeyFile" || key == "subURI" || key == "subJsonExt" then
      .ok value
    else if defaultKeys.contains key then .ok value
    else .error ("unknown setting key: " ++ key)
  match valueStep with
  | .error e => .error e
  | .ok valueStr => .ok (saveSetting settings key valueStr)

/-! ## Change log and change feed (`src/unnamed/part_001`) -/

/-- A `model.Changes` record: the append-only change log row. -/
structure Change where
  dateTime : Int
  actor : String
  key : String
  action : String
  obj : JVal

/-- `ConfigService.CheckChanges` (`src/unnamed/part_001` lines 359-394).
State is the in-memory watermark (`LastUpdate`); the result pairs the
reported flag with the watermark after the call. -/
def checkChanges (lastUpdate : Int) (changes : List Change) (lu : String)
    (now : Int) : Except String (Bool × Int) :=
  if lu == "" then .ok (true, lastUpdate)
  else
    match parseGoInt lu with
    | none => .error ("invalid last update timestamp format " ++ lu)
    | some luVal =>
        if lastUpdate > luVal then .ok (true, lastUpdate)
        else
          let count := (changes.filter (fun c => c.dateTime > luVal)).length
          if count > 0 then .ok (true, now)
          else .ok (false, lastUpdate)

/-! ## Remaining client-table updates used by the orchestrator -/

/-- Split a comma-separated id list (`strings.Split(initIds, ",")`)
and parse each piece as a numeric id; unparsable pieces match no row. -/
def splitIds (s : String) : List (Option Nat) :=
  (splitOnChar (Char.ofNat 44) s.data).map
    (fun cs => (digitsToNat cs).map id)

/-- The per-client rewrite of `ClientService.UpdateClientsOnInboundAdd`
(`src/unnamed/part_002` lines 474-517): append the inbound id to the
client's set and regenerate that inbound's descriptors, keeping every
previous descriptor whose remark differs from the inbound's tag. -/
def clientOnInboundAdd (linkGen : RawMsg → Inbound → String → List String)
    (inbound : Inbound) (inboundId : Nat) (hostname : String) (c : Client) :
    Except String Client :=
  let inbStep : Except String (List Nat) :=
    match c.inbounds with
    | .nil => .ok []
    | r => parseInboundIds r
  match inbStep with
  | .error e => .error e
  | .ok clientInbounds =>
      let lnkStep : Except String (List (List (String × String))) :=
        match c.links with
        | .nil => .ok []
        | r => parseLinks r
      match lnkStep with
      | .error e => .error e
      | .ok clientLinks =>
          let newLinks :=
            (linkGen c.config inbound hostname).map (localLink inbound.tag)
              ++ clientLinks.filter (fun l => lget l "remark" != inbound.tag)
          .ok { c with inbounds := marshalInboundIds (clientInbounds ++ [inboundId]),
                       links := marshalLinks newLinks }

/-- `ClientService.UpdateClientsOnInboundAdd` (`src/unnamed/part_002`
lines 459-520): rewrite the clients named in the comma-separated init
list against the added inbound (a missing inbound row reads back as the
zero record). -/
def updateClientsOnInboundAdd (linkGen : RawMsg → Inbound → String → List String)
    (inbStore : List Inbound) (store : List Client) (initIds : String)
    (inboundId : Nat) (hostname : String) : Except String (List Client) :=
  let ids := splitIds initIds
  if initIds == "" then .ok store
  else
    let inbound : Inbound :=
      match inbStore.find? (fun i => i.id == inboundId) with
      | some i => i
      | none => { id := 0, type := "", tag := "", tlsId := 0,
                  tls := .null, options := .nil, outJson := .nil }
    updateEach inbound ids store
where
  /-- Rewrite the selected clients in table order. -/
  updateEach (inbound : Inbound) (ids : List (Option Nat)) :
      List Client → Except String (List Client)
    | [] => .ok []
    | c :: rest =>
        let step : Except String Client :=
          if ids.contains (some c.id) then
            clientOnInboundAdd linkGen inbound inboundId hostname c
          else .ok c
        match step with
        | .error e => .error e
        | .ok c2 =>
            match updateEach inbound ids rest with
            | .error e => .error e
            | .ok tail => .ok (c2 :: tail)

/-- The per-client rewrite of `ClientService.UpdateLinksByInboundChange`
(`src/unnamed/part_002` lines 590-619): regenerate the changed
inbound's descriptors, keeping every previous descriptor whose remark
differs from the inbound's tag. -/
def clientOnInboundChange (linkGen : RawMsg → Inbound → String → List String)
    (inbound : Inbound) (hostname : String) (c : Client) :
    Except String Client :=
  let lnkStep : Except String (List (List (String × String))) :=
    match c.links with
    | .nil => .ok []
    | r => parseLinks r
  match lnkStep with
  | .error e => .error e
  | .ok clientLinks =>
      let newLinks :=
        (linkGen c.config inbound hostname).map (localLink inbound.tag)
          ++ clientLinks.filter (fun l => lget l "remark" != inbound.tag)
      .ok { c with links := marshalLinks newLinks }

/-- `ClientService.UpdateLinksByInboundChange` (`src/unnamed/part_002`
lines 573-623): for every affected link-capable inbound, rewrite every
client linked to it. -/
def updateLinksByInboundChange (linkGen : RawMsg → Inbound → String → List String)
    (typeWithLink : List String) (inbStore : List Inbound)
    (store : List Client) (inbounIds : List Nat) (hostname : String) :
    Except String (List Client) :=
  let inbounds := inbStore.filter
    (fun i => inbounIds.contains i.id && typeWithLink.contains i.type)
  goInbounds inbounds store
where
  /-- Process one inbound against the whole client table. -/
  goClients (inbound : Inbound) : List Client → Except String (List Client)
    | [] => .ok []
    | c :: rest =>
        let step : Except String Client :=
          if clientLinkedTo c inbound.id then
            clientOnInboundChange linkGen inbound hostname c
          else .ok c
        match step with
        | .error e => .error e
        | .ok c2 =>
            match goClients inbound rest with
            | .error e => .error e
            | .ok tail => .ok (c2 :: tail)
  /-- Fold over the affected inbounds. -/
  goInbounds : List Inbound → List Client → Except String (List Client)
    | [], cs => .ok cs
    | inbound :: rest, cs =>
        match goClients inbound cs with
        | .error e => .error e
        | .ok cs2 => goInbounds rest cs2

/-- `InboundService.UpdateOutJsons` (`src/unnamed/part_003` lines
213-231): regenerate the out-json cache of every named inbound. -/
def updateOutJsons (fillOutJson : Inbound → String → Except String Inbound)
    (store : List Inbound) (inboundIds : List Nat) (hostname : String) :
    Except String (List Inbound) :=
  goRows (store.filter (fun i => inboundIds.contains i.id)) store
where
  /-- Recompute each selected row and write it back by tag. -/
  goRows : List Inbound → List Inbound → Except String (List Inbound)
    | [], acc => .ok acc
    | row :: rest, acc =>
        match fillOutJson row hostname with
        | .error e => .error e
        | .ok row2 =>
            let acc2 := acc.map
              (fun i => if i.tag == row2.tag then { i with outJson := row2.outJson } else i)
            goRows rest acc2

/-- GORM `tx.Save` for clients. -/
def upsertClient (store : List Client) (c : Client) : List Client :=
  if c.id == 0 then
    let fresh := (store.map Client.id).foldl max 0 + 1
    store ++ [{ c with id := fresh }]
  else if store.any (fun cl => cl.id == c.id) then
    store.map (fun cl => if cl.id == c.id then c else cl)
  else store ++ [c]

/-- `ClientService.Save` (`src/unnamed/part_002` lines 331-409):
new/edit rewrites one client's local links against its declared inbound
set and persists it; addbulk does the same for a batch using the first
client's inbound set; del reads the record first (for the restart set)
and deletes it.  Returns the updated table and the affected inbound
ids. -/
def clientSave (linkGen : RawMsg → Inbound → String → List String)
    (typeWithLink : List String) (inbStore : List Inbound)
    (store : List Client) (act : String) (data : JVal) (hostname : String) :
    Except String (List Client × List Nat) :=
  if act == "new" || act == "edit" then
    match clientUnmarshal data with
    | .error e => .error ("failed to unmarshal client data: " ++ e)
    | .ok c =>
        match parseInboundIds c.inbounds with
        | .error e => .error ("failed to unmarshal client.Inbounds: " ++ e)
        | .ok inboundIds =>
            match updateLinksWithFixedInbounds linkGen typeWithLink inbStore
                [c] inboundIds hostname with
            | .error e => .error e
            | .ok [c2] => .ok (upsertClient store c2, inboundIds)
            | .ok _ => .error "unexpected client list shape"
  else if act == "addbulk" then
    match data.asArr with
    | none => .error "failed to unmarshal bulk client data"
    | some rows =>
        match unmarshalAll rows with
        | .error e => .error e
        | .ok cs =>
            if cs.isEmpty then .ok (store, [])
            else
              let firstInbounds : Except String (List Nat) :=
                match cs with
                | c0 :: _ =>
                    match c0.inbounds with
                    | .nil => .ok []
                    | r => parseInboundIds r
                | [] => .ok []
              match firstInbounds with
              | .error e => .error ("failed to unmarshal inbounds for the first client: " ++ e)
              | .ok inboundIds =>
                  match updateLinksWithFixedInbounds linkGen typeWithLink
                      inbStore cs inboundIds hostname with
                  | .error e => .error e
                  | .ok cs2 => .ok (cs2.foldl upsertClient store, inboundIds)
  else if act == "del" then
    match data.asNum with
    | none => .error "failed to unmarshal client ID for deletion"
    | some idInt =>
        let id := idInt.toNat
        match store.find? (fun cl => cl.id == id) with
        | none => .error "failed to find client for deletion"
        | some c =>
            match parseInboundIds c.inbounds with
            | .error e => .error ("failed to unmarshal client.Inbounds: " ++ e)
            | .ok inboundIds =>
                .ok (store.filter (fun cl => cl.id != id), inboundIds)
  else .error ("unknown action: " ++ act)
where
  /-- Decode each element of the bulk payload. -/
  unmarshalAll : List JVal → Except String (List Client)
    | [] => .ok []
    | x :: rest =>
        match clientUnmarshal x with
        | .error e => .error ("failed to unmarshal bulk client data: " ++ e)
        | .ok c =>
            match unmarshalAll rest with
            | .error e => .error e
            | .ok tail => .ok (c :: tail)

/-! ## The durable store and the save orchestrator (`src/unnamed/part_001`) -/

mutual
/-- Render a JSON value back to text (the raw payload string stored by
the config branch and the change log). -/
def JVal.render : JVal → String
  | .null => "null"
  | .bool b => if b then "true" else "false"
  | .num n => toString n
  | .str s => "\"" ++ s ++ "\""
  | .arr xs => "[" ++ renderList xs ++ "]"
  | .obj fs => "\x7b" ++ renderFields fs ++ "\x7d"

/-- Render the elements of an array. -/
def renderList : List JVal → String
  | [] => ""
  | [x] => JVal.render x
  | x :: rest => JVal.render x ++ "," ++ renderList rest

/-- Render the fields of an object. -/
def renderFields : List (String × JVal) → String
  | [] => ""
  | [(k, v)] => "\"" ++ k ++ "\":" ++ JVal.render v
  | (k, v) :: rest => "\"" ++ k ++ "\":" ++ JVal.render v ++ "," ++ renderFields rest
end

/-- The durable store: one table per entity class plus the append-only
change log.  TLS rows are kept as id-keyed raw documents. -/
structure Store where
  inbounds : List Inbound
  outbounds : List Outbound
  endpoints : List Endpoint
  clients : List Client
  tlsRecs : List (Nat × JVal)
  settings : Settings
  changes : List Change

/-- Every collaborator of the orchestrator whose code is outside src/
or reaches outside the process: the Warp client, the live-core adapter,
`util.LinkGenerator`, `util.InboundTypeWithLink`, the inbound-save
helpers, `TlsService.Save`, `time.LoadLocation` validity, and the
stop-and-restart performed by the config branch. -/
structure Oracles where
  warp : WarpOps
  core : CoreOps
  linkGen : RawMsg → Inbound → String → List String
  typeWithLink : List String
  inb : InbOracles
  tlsSave : List (Nat × JVal) → String → JVal →
    Except String (List (Nat × JVal) × List Nat)
  locOk : String → Bool
  restartWithConfig : JVal → Except String Unit

/-- Decode the settings payload (`map[string]string`). -/
def decodeStringMap (data : JVal) : Except String (List (String × String)) :=
  match data with
  | .obj fs => decodeFields fs
  | _ => .error "failed to unmarshal settings data"
where
  /-- Every value must be a string. -/
  decodeFields : List (String × JVal) → Except String (List (String × String))
    | [] => .ok []
    | (k, v) :: rest =>
        match v.asStr with
        | none => .error "failed to unmarshal settings data"
        | some s =>
            match decodeFields rest with
            | .error e => .error e
            | .ok tail => .ok ((k, s) :: tail)

/-- Apply `SettingService.Update` to each pair of the settings payload,
aborting on the first failure.  (Go iterates the decoded map in
unspecified order; the model iterates in document order.) -/
def settingsUpdateAll (locOk : String → Bool) (settings : Settings) :
    List (String × String) → Except String Settings
  | [] => .ok settings
  | (k, v) :: rest =>
      match settingUpdate locOk settings k v with
      | .error e => .error ("failed to save setting " ++ k ++ ": " ++ e)
      | .ok settings2 => settingsUpdateAll locOk settings2 rest

/-- The transactional body of `ConfigService.Save` (`src/unnamed/part_001`
lines 162-356): the per-class switch, the change-log append, and the
in-transaction side updates.  Runs against a snapshot of the store; the
surrounding transaction decides whether the result ever becomes
durable. -/
def saveTxBody (o : Oracles) (st : Store) (obj act : String) (data : JVal)
    (initUsers loginUser hostname : String) (now : Int) :
    Except String (Store × List String) :=
  let switchStep : Except String (Store × List String × List Nat) :=
    if obj == "clients" then
      match clientSave o.linkGen o.typeWithLink st.inbounds st.clients act
          data hostname with
      | .error e => .error ("failed to save clients: " ++ e)
      | .ok (clients2, ids) =>
          .ok ({ st with clients := clients2 }, ["clients", "inbounds"], ids)
    else if obj == "tls" then
      match o.tlsSave st.tlsRecs act data with
      | .error e => .error ("failed to save tls: " ++ e)
      | .ok (tls2, ids) => .ok ({ st with tlsRecs := tls2 }, ["tls"], ids)
    else if obj == "inbounds" then
      let preDelete : Except String String :=
        if act == "del" then
          match data.asNum with
          | none => .error "failed to unmarshal inbound ID for deletion"
          | some idInt =>
              if idInt.toNat == 0 then .error "inbound ID for deletion cannot be zero"
              else
                match st.inbounds.find? (fun i => i.id == idInt.toNat) with
                | none => .error "failed to retrieve tag for inbound prior to deletion"
                | some row => .ok row.tag
        else .ok ""
      match preDelete with
      | .error e => .error e
      | .ok tagForClientUpdate =>
          match (inboundSave o.inb o.core st.tlsRecs st.inbounds act data
              initUsers hostname).2 with
          | .error e => .error e
          | .ok (inbounds2, actualId) =>
              let st1 := { st with inbounds := inbounds2 }
              let clientStep : Except String (List Client) :=
                if act == "new" then
                  updateClientsOnInboundAdd o.linkGen st1.inbounds st1.clients
                    initUsers actualId hostname
                else if act == "edit" then
                  if actualId ≠ 0 then
                    updateLinksByInboundChange o.linkGen o.typeWithLink
                      st1.inbounds st1.clients [actualId] hostname
                  else .ok st1.clients
                else
                  updateClientsOnInboundDelete st1.clients actualId
                    tagForClientUpdate
              match clientStep with
              | .error e => .error e
              | .ok clients2 =>
                  .ok ({ st1 with clients := clients2 },
                       ["inbounds", "clients"], [actualId])
    else if obj == "outbounds" then
      match outboundSave o.core st.outbounds act data with
      | .error e => .error ("failed to save outbounds: " ++ e)
      | .ok outbounds2 => .ok ({ st with outbounds := outbounds2 }, ["outbounds"], [])
    else if obj == "endpoints" then
      match endpointSave o.warp o.core st.endpoints act data with
      | .error e => .error ("failed to save endpoints: " ++ e)
      | .ok endpoints2 => .ok ({ st with endpoints := endpoints2 }, ["endpoints"], [])
    else if obj == "config" then
      match settingUpdate o.locOk st.settings "config" (JVal.render data) with
      | .error e => .error ("failed to save config: " ++ e)
      | .ok settings2 =>
          match o.restartWithConfig data with
          | .error e => .error ("failed to restart core with new config: " ++ e)
          | .ok _ => .ok ({ st with settings := settings2 }, ["config"], [])
    else if obj == "settings" then
      match decodeStringMap data with
      | .error e => .error e
      | .ok pairs =>
          match settingsUpdateAll o.locOk st.settings pairs with
          | .error e => .error e
          | .ok settings2 => .ok ({ st with settings := settings2 }, ["settings"], [])
    else .error ("unknown object type: " ++ obj)
  match switchStep with
  | .error e => .error e
  | .ok (st2, objs, sideIds) =>
      let st3 := { st2 with changes := st2.changes ++
        [{ dateTime := now, actor := loginUser, key := obj, action := act,
           obj := data }] }
      let sideStep : Except String (Store × List String) :=
        if obj == "tls" && !sideIds.isEmpty then
          match updateLinksByInboundChange o.linkGen o.typeWithLink st3.inbounds
              st3.clients sideIds hostname with
          | .error e => .error ("failed to update client links after tls change: " ++ e)
          | .ok clients2 =>
              match updateOutJsons o.inb.fillOutJson st3.inbounds sideIds hostname with
              | .error e => .error ("unable to update out_json of inbounds after tls change: " ++ e)
              | .ok inbounds2 =>
                  .ok ({ st3 with clients := clients2, inbounds := inbounds2 },
                       objs ++ ["clients", "inbounds"])
        else .ok (st3, objs)
      match sideStep with
      | .error e => .error e
      | .ok (st4, objs2) =>
          -- the trailing inbounds block runs with singleInboundId still at
          -- its zero value: the variable is declared but never assigned
          if obj == "inbounds" then
            let clientStep : Except String (List Client) :=
              if act == "new" then
                updateClientsOnInboundAdd o.linkGen st4.inbounds st4.clients
                  initUsers 0 hostname
              else if act == "del" then
                match data.asStr with
                | none => .error "failed to unmarshal tag for inbound deletion"
                | some tag => updateClientsOnInboundDelete st4.clients 0 tag
              else .ok st4.clients
            match clientStep with
            | .error e => .error ("failed to update clients after inbound " ++ act ++ ": " ++ e)
            | .ok clients2 =>
                .ok ({ st4 with clients := clients2 }, objs2 ++ ["clients"])
          else .ok (st4, objs2)

/-- `ConfigService.Save` (`src/unnamed/part_001` lines 120-357): run the
transactional body; on any error the deferred handler rolls the
transaction back, so the durable store is the pre-call store; on success
the commit makes the body's result durable.  (The post-commit restart
list, core auto-start and watermark advance touch only the live core and
process memory, not the durable store.) -/
def configSave (o : Oracles) (st : Store) (obj act : String) (data : JVal)
    (initUsers loginUser hostname : String) (now : Int) :
    Store × Except String (List String) :=
  match saveTxBody o st obj act data initUsers loginUser hostname now with
  | .error e => (st, .error e)
  | .ok (st2, objs) => (st2, .ok objs)

/-! ## Config assembly (`src/unnamed/part_001` lines 44-71) -/

/-- The parsed skeleton of the base document. -/
structure SingBoxConfig where
  log : JVal
  dns : JVal
  ntp : JVal
  route : JVal
  experimental : JVal
  inbounds : List JVal
  outbounds : List JVal
  endpoints : List JVal

/-- Decode one of the three array sections. -/
def arrSection (fs : List (String × JVal)) (k : String) :
    Except String (List JVal) :=
  match jlookup fs k with
  | none => .ok []
  | some .null => .ok []
  | some (.arr xs) => .ok xs
  | some _ => .error ("failed to unmarshal base config: bad " ++ k)

/-- `json.Unmarshal` of the base document into `SingBoxConfig`. -/
def unmarshalSingBox (r : RawMsg) : Except String SingBoxConfig :=
  match r with
  | .nil => .error "failed to unmarshal base config"
  | .malformed => .error "failed to unmarshal base config"
  | .json .null =>
      .ok { log := .null, dns := .null, ntp := .null, route := .null,
            experimental := .null, inbounds := [], outbounds := [], endpoints := [] }
  | .json (.obj fs) =>
      match arrSection fs "inbounds" with
      | .error e => .error e
      | .ok inb =>
          match arrSection fs "outbounds" with
          | .error e => .error e
          | .ok outb =>
              match arrSection fs "endpoints" with
              | .error e => .error e
              | .ok endp =>
                  .ok { log := (jlookup fs "log").getD .null,
                        dns := (jlookup fs "dns").getD .null,
                        ntp := (jlookup fs "ntp").getD .null,
                        route := (jlookup fs "route").getD .null,
                        experimental := (jlookup fs "experimental").getD .null,
                        inbounds := inb, outbounds := outb, endpoints := endp }
  | .json _ => .error "failed to unmarshal base config"

/-- `InboundService.GetAllConfig` (`src/unnamed/part_003` lines
233-252): marshal every stored inbound and inject its users; any
failure fails the whole listing. -/
def inboundGetAllConfig (marshal : Inbound → Except String JVal)
    (addUsers : JVal → Nat → String → Except String JVal) :
    List Inbound → Except String (List JVal)
  | [] => .ok []
  | i :: rest =>
      match marshal i with
      | .error e => .error e
      | .ok doc =>
          match addUsers doc i.id i.type with
          | .error e => .error e
          | .ok doc2 =>
              match inboundGetAllConfig marshal addUsers rest with
              | .error e => .error e
              | .ok tail => .ok (doc2 :: tail)

/-- `ConfigService.GetConfig` (`src/unnamed/part_001` lines 44-71):
parse the base document (the override, or the stored base fetched from
settings — the caller passes whichever applies) and replace the three
array sections with the serialized form of every stored record of the
respective class. -/
def getConfig (o : Oracles) (st : Store) (base : RawMsg) :
    Except String SingBoxConfig :=
  match unmarshalSingBox base with
  | .error e => .error e
  | .ok cfg =>
      match inboundGetAllConfig o.inb.marshal o.inb.addUsers st.inbounds with
      | .error e => .error ("failed to get all inbound configs: " ++ e)
      | .ok inb =>
          let outb := (outboundGetAllConfig st.outbounds).map JVal.obj
          match endpointGetAllConfig st.endpoints with
          | .error e => .error ("failed to get all endpoint configs: " ++ e)
          | .ok endp =>
              .ok { cfg with inbounds := inb, outbounds := outb,
                             endpoints := endp.map JVal.obj }

/-! ## Concrete fixtures used by witnesses and counterexamples -/

/-- A Warp oracle standing for an unreachable provisioning service. -/
def offlineWarp : WarpOps where
  register := fun _ => .error "provisioning offline"
  setLicense := fun _ _ => .ok ()

/-- A core adapter with no live core running. -/
def stoppedCore : CoreOps where
  running := false
  removeEndpoint := fun _ => .ok
  addEndpoint := fun _ => .ok
  removeOutbound := fun _ => .ok
  addOutbound := fun _ => .ok
  removeInbound := fun _ => .ok
  addInbound := fun _ => .ok

/-- Inbound-save helper oracles that succeed without changing anything. -/
def passiveInbOracles : InbOracles where
  fillOutJson := fun i _ => .ok i
  marshal := fun _ => .ok .null
  addUsers := fun doc _ _ => .ok doc
  initUsers := fun doc _ _ => .ok doc

/-- A full oracle bundle around the stopped core. -/
def stubOracles : Oracles where
  warp := offlineWarp
  core := stoppedCore
  linkGen := fun _ _ _ => []
  typeWithLink := []
  inb := passiveInbOracles
  tlsSave := fun t _ _ => .ok (t, [])
  locOk := fun _ => false
  restartWithConfig := fun _ => .ok ()

/-- The empty durable store. -/
def emptyStore : Store where
  inbounds := []
  outbounds := []
  endpoints := []
  clients := []
  tlsRecs := []
  settings := []
  changes := []

/-! ## Generic lemmas about the map embedding -/

theorem jlookup_jset_self {α : Type} (m : List (String × α)) (k : String) (v : α) :
    jlookup (jset m k v) k = some v := by
  induction m with
  | nil => simp [jset, jlookup]
  | cons hd t ih =>
      obtain ⟨k2, v2⟩ := hd
      by_cases hk : (k2 == k) = true
      · simp [jset, hk, jlookup]
      · simp only [Bool.not_eq_true] at hk
        simp [jset, hk, jlookup, ih]

theorem jlookup_jset_other {α : Type} (m : List (String × α)) (k k2 : String)
    (v : α) (h : (k == k2) = false) :
    jlookup (jset m k v) k2 = jlookup m k2 := by
  induction m with
  | nil => simp [jset, jlookup, h]
  | cons hd t ih =>
      obtain ⟨k3, v3⟩ := hd
      by_cases hk : (k3 == k) = true
      · have hkeq : k3 = k := by simpa using hk
        subst hkeq
        simp [jset, jlookup, h]
      · simp only [Bool.not_eq_true] at hk
        simp [jset, hk, jlookup, ih]

theorem foldl_append_eq_flatMap {α β : Type} (f : α → List β) :
    ∀ (l : List α) (acc : List β),
      l.foldl (fun a x => a ++ f x) acc = acc ++ l.flatMap f := by
  intro l
  induction l with
  | nil => intro acc; simp
  | cons x xs ih => intro acc; simp [ih, List.append_assoc]

/-! ## Claim C2: rollback atomicity of the orchestrator -/

/-- Claim C2: for every call to the save orchestrator, if any error
occurs during the validation or mutation phase the transaction is
rolled back: the durable store after the call equals the pre-call
store, no entity written in earlier mutation steps persists, and no
change-log record is appended. -/
theorem C2_rollback_on_error (o : Oracles) (st : Store) (obj act : String)
    (data : JVal) (initUsers loginUser hostname : String) (now : Int)
    (h : exceptOk (configSave o st obj act data initUsers loginUser hostname now).2
      = false) :
    (configSave o st obj act data initUsers loginUser hostname now).1 = st
    ∧ (configSave o st obj act data initUsers loginUser hostname now).1.changes
      = st.changes := by
  cases hb : saveTxBody o st obj act data initUsers loginUser hostname now with
  | error e => constructor <;> simp [configSave, hb]
  | ok p => exfalso; simp [configSave, hb, exceptOk] at h

/-- A settings payload whose first key saves and whose second key fails
integer parsing, exercising rollback of an earlier mutation step. -/
def c2FailingData : JVal :=
  .obj [("webPort", .str "8080"), ("subPort", .str "oops")]

/-- Witness for C2: the two-key settings save fails on its second key
and the store, including its change log, is exactly the pre-call one. -/
theorem C2_rollback_witness :
    exceptOk (configSave stubOracles emptyStore "settings" "upd" c2FailingData
      "" "admin" "" 5).2 = false
    ∧ (configSave stubOracles emptyStore "settings" "upd" c2FailingData
      "" "admin" "" 5).1 = emptyStore
    ∧ (configSave stubOracles emptyStore "settings" "upd" c2FailingData
      "" "admin" "" 5).1.changes = emptyStore.changes := by
  refine ⟨rfl, ?_⟩
  exact C2_rollback_on_error stubOracles emptyStore "settings" "upd" c2FailingData
    "" "admin" "" 5 rfl

/-! ## Claim C6: the change-feed watermark check -/

/-- Claim C6: CheckChanges reports changed when no watermark is
supplied; reports changed when the in-memory watermark is strictly
newer than the caller's; otherwise counts change-log records strictly
newer than the caller's and, when any exist, refreshes the in-memory
watermark to the current time and reports changed; it reports unchanged
exactly when no such record exists. -/
theorem C6_check_changes (lastUpdate now luVal : Int) (changes : List Change)
    (lu : String) (hparse : parseGoInt lu = some luVal) :
    checkChanges lastUpdate changes "" now = .ok (true, lastUpdate)
    ∧ (lastUpdate > luVal →
        checkChanges lastUpdate changes lu now = .ok (true, lastUpdate))
    ∧ (lastUpdate ≤ luVal →
        0 < (changes.filter (fun c => c.dateTime > luVal)).length →
        checkChanges lastUpdate changes lu now = .ok (true, now))
    ∧ (lastUpdate ≤ luVal →
        (changes.filter (fun c => c.dateTime > luVal)).length = 0 →
        checkChanges lastUpdate changes lu now = .ok (false, lastUpdate)) := by
  have hne : (lu == "") = false := by
    cases hq : lu == "" with
    | false => rfl
    | true =>
        exfalso
        have : lu = "" := by simpa using hq
        subst this
        simp [parseGoInt] at hparse
  refine ⟨by simp [checkChanges], ?_, ?_, ?_⟩
  · intro hgt
    simp [checkChanges, hne, hparse, hgt]
  · intro hle hpos
    have hngt : ¬ lastUpdate > luVal := by omega
    simp [checkChanges, hne, hparse, hngt, hpos]
  · intro hle hzero
    have hngt : ¬ lastUpdate > luVal := by omega
    have hnpos : ¬ 0 < (changes.filter (fun c => c.dateTime > luVal)).length := by
      omega
    simp [checkChanges, hne, hparse, hngt, hnpos]

/-- A change-log row newer than the caller watermark 3. -/
def newerChange : Change :=
  { dateTime := 4, actor := "a", key := "clients", action := "new", obj := .null }

/-- A change-log row older than the caller watermark 3. -/
def olderChange : Change :=
  { dateTime := 1, actor := "a", key := "clients", action := "new", obj := .null }

/-- Witness for C6: all four branches at concrete watermarks: no
caller watermark, newer in-memory watermark, database fallback with a
newer record, and database fallback with none. -/
theorem C6_check_changes_witness :
    checkChanges 5 [newerChange] "" 9 = .ok (true, 5)
    ∧ checkChanges 5 [newerChange] "3" 9 = .ok (true, 5)
    ∧ checkChanges 2 [newerChange] "3" 9 = .ok (true, 9)
    ∧ checkChanges 2 [olderChange] "3" 9 = .ok (false, 2) := by
  refine ⟨(C6_check_changes 5 9 3 _ "3" rfl).1,
    (C6_check_changes 5 9 3 _ "3" rfl).2.1 (by omega),
    (C6_check_changes 2 9 3 _ "3" rfl).2.2.1 (by omega) (by decide),
    (C6_check_changes 2 9 3 _ "3" rfl).2.2.2 (by omega) (by decide)⟩

/-! ## Claim C5: the link synchronizer contract -/

theorem lget_localLink_type (t u : String) :
    lget (localLink t u) "type" = "local" := by
  simp [lget, localLink, jlookup]

theorem regen_gen_eq_flatMap (linkGen : RawMsg → Inbound → String → List String)
    (hostname : String) (inbounds : List Inbound) (config : RawMsg) :
    inbounds.foldl
      (fun acc inbound => acc ++ (linkGen config inbound hostname).map (localLink inbound.tag))
      []
    = inbounds.flatMap
        (fun inbound => (linkGen config inbound hostname).map (localLink inbound.tag)) := by
  simpa using foldl_append_eq_flatMap
    (fun inbound => (linkGen config inbound hostname).map (localLink inbound.tag))
    inbounds []

theorem regen_gen_filter_nil (linkGen : RawMsg → Inbound → String → List String)
    (hostname : String) (inbounds : List Inbound) (config : RawMsg) :
    (inbounds.flatMap
        (fun inbound => (linkGen config inbound hostname).map (localLink inbound.tag))).filter
      (fun clientLink => lget clientLink "type" != "local") = [] := by
  rw [List.filter_eq_nil_iff]
  intro a ha
  obtain ⟨inbound, _, ha2⟩ := List.mem_flatMap.mp ha
  obtain ⟨u, _, rfl⟩ := List.mem_map.mp ha2
  simp [lget_localLink_type]

theorem regenLinks_eq_spec (linkGen : RawMsg → Inbound → String → List String)
    (hostname : String) (inbounds : List Inbound) (config : RawMsg)
    (old : List (List (String × String))) :
    regenLinks linkGen hostname inbounds config old
      = specRegenerate linkGen hostname inbounds config old := by
  unfold regenLinks specRegenerate
  rw [regen_gen_eq_flatMap]

theorem regenLinks_idem (linkGen : RawMsg → Inbound → String → List String)
    (hostname : String) (inbounds : List Inbound) (config : RawMsg)
    (old : List (List (String × String))) :
    regenLinks linkGen hostname inbounds config
      (regenLinks linkGen hostname inbounds config old)
    = regenLinks linkGen hostname inbounds config old := by
  unfold regenLinks
  rw [regen_gen_eq_flatMap, List.filter_append, regen_gen_filter_nil,
    List.filter_filter]
  simp

theorem parseOne_roundtrip (l : List (String × String)) :
    parseLinks.parseOne (l.map (fun kv => (kv.1, .str kv.2))) = .ok l := by
  induction l with
  | nil => rfl
  | cons kv rest ih =>
      obtain ⟨k, v⟩ := kv
      simp [parseLinks.parseOne, JVal.asStr, ih]

theorem parseLinks_marshalLinks (ls : List (List (String × String))) :
    parseLinks (marshalLinks ls) = .ok ls := by
  have hEach : ∀ ls2 : List (List (String × String)),
      parseLinks.parseEach
        (ls2.map (fun l => JVal.obj (l.map (fun kv => (kv.1, .str kv.2))))) = .ok ls2 := by
    intro ls2
    induction ls2 with
    | nil => rfl
    | cons l rest ih =>
        simp [parseLinks.parseEach, JVal.asObj, parseOne_roundtrip, ih]
  simpa [marshalLinks, parseLinks] using hEach ls

/-- The client record produced by one pass of the link rewrite. -/
def regeneratedClient (linkGen : RawMsg → Inbound → String → List String)
    (typeWithLink : List String) (inbStore : List Inbound) (hostname : String)
    (c : Client) (ids : List Nat) (old : List (List (String × String))) : Client :=
  { c with links := marshalLinks (regenLinks linkGen hostname
      (if ids.isEmpty then [] else inbStore.filter
        (fun i => ids.contains i.id && typeWithLink.contains i.type))
      c.config old) }

theorem updateLinks_single (linkGen : RawMsg → Inbound → String → List String)
    (typeWithLink : List String) (inbStore : List Inbound) (hostname : String)
    (c : Client) (ids : List Nat) (old : List (List (String × String)))
    (hold : parseLinks c.links = .ok old) :
    updateLinksWithFixedInbounds linkGen typeWithLink inbStore [c] ids hostname
      = .ok [regeneratedClient linkGen typeWithLink inbStore hostname c ids old] := by
  unfold updateLinksWithFixedInbounds regeneratedClient
  simp only [updateLinksWithFixedInbounds.updateAll, hold]

/-- Claim C5: link regeneration produces exactly the newly generated
local descriptors, each remarked with its inbound tag, in
inbound-iteration order, followed by every previous non-local
descriptor verbatim in original relative order; consequently re-running
it with an unchanged client and unchanged linked-inbound set yields an
identical list. -/
theorem C5_link_regeneration (linkGen : RawMsg → Inbound → String → List String)
    (typeWithLink : List String) (inbStore : List Inbound) (hostname : String)
    (c : Client) (ids : List Nat) (old : List (List (String × String)))
    (hold : parseLinks c.links = .ok old) :
    (∀ (inbounds : List Inbound) (config : RawMsg)
        (prev : List (List (String × String))),
      regenLinks linkGen hostname inbounds config prev
        = specRegenerate linkGen hostname inbounds config prev)
    ∧ updateLinksWithFixedInbounds linkGen typeWithLink inbStore [c] ids hostname
        = .ok [regeneratedClient linkGen typeWithLink inbStore hostname c ids old]
    ∧ updateLinksWithFixedInbounds linkGen typeWithLink inbStore
        [regeneratedClient linkGen typeWithLink inbStore hostname c ids old]
        ids hostname
      = .ok [regeneratedClient linkGen typeWithLink inbStore hostname c ids old] := by
  refine ⟨fun inbounds config prev => regenLinks_eq_spec _ _ _ _ _,
    updateLinks_single _ _ _ _ _ _ _ hold, ?_⟩
  have hparse2 : parseLinks
      (regeneratedClient linkGen typeWithLink inbStore hostname c ids old).links
      = .ok (regenLinks linkGen hostname
          (if ids.isEmpty then [] else inbStore.filter
            (fun i => ids.contains i.id && typeWithLink.contains i.type))
          c.config old) := parseLinks_marshalLinks _
  rw [updateLinks_single linkGen typeWithLink inbStore hostname _ ids _ hparse2]
  show Except.ok [{ regeneratedClient linkGen typeWithLink inbStore hostname c ids old
      with links := marshalLinks (regenLinks linkGen hostname
        (if ids.isEmpty then [] else inbStore.filter
          (fun i => ids.contains i.id && typeWithLink.contains i.type))
        c.config (regenLinks linkGen hostname
          (if ids.isEmpty then [] else inbStore.filter
            (fun i => ids.contains i.id && typeWithLink.contains i.type))
          c.config old)) }]
    = Except.ok [regeneratedClient linkGen typeWithLink inbStore hostname c ids old]
  rw [regenLinks_idem]
  rfl

/-- A link generator producing one URI per inbound. -/
def oneUriGen : RawMsg → Inbound → String → List String :=
  fun _ _ _ => ["vmess://u1"]

/-- A link-capable inbound fixture. -/
def vmessInbound : Inbound :=
  { id := 1, type := "vmess", tag := "in1", tlsId := 0, tls := .null,
    options := .nil, outJson := .nil }

/-- A previously stored external descriptor. -/
def externalLink : List (String × String) :=
  [("remark", "ext"), ("type", "external"), ("uri", "vless://x")]

/-- A client fixture holding one external descriptor. -/
def c5client : Client :=
  { id := 7, enable := true, name := "alice",
    inbounds := marshalInboundIds [1],
    links := marshalLinks [externalLink], config := .nil }

/-- Witness for C5: one concrete regeneration pass and its idempotent
re-run. -/
theorem C5_link_regeneration_witness :
    updateLinksWithFixedInbounds oneUriGen ["vmess"] [vmessInbound] [c5client]
      [1] "host"
      = .ok [regeneratedClient oneUriGen ["vmess"] [vmessInbound] "host"
          c5client [1] [externalLink]]
    ∧ updateLinksWithFixedInbounds oneUriGen ["vmess"] [vmessInbound]
        [regeneratedClient oneUriGen ["vmess"] [vmessInbound] "host"
          c5client [1] [externalLink]] [1] "host"
      = .ok [regeneratedClient oneUriGen ["vmess"] [vmessInbound] "host"
          c5client [1] [externalLink]] :=
  ⟨(C5_link_regeneration oneUriGen ["vmess"] [vmessInbound] "host" c5client [1]
      [externalLink] (by rfl)).2.1,
   (C5_link_regeneration oneUriGen ["vmess"] [vmessInbound] "host" c5client [1]
      [externalLink] (by rfl)).2.2⟩

/-! ## Claim C10: the endpoint list view -/

/-- Claim C10: the list-view map of every stored endpoint reports the
canonical id, type, tag and ext fields even when the options bag
carries keys of those names (options are inserted first, canonical
fields overwrite them), and the stored type is reported as-is, with no
legacy-name rewriting — unlike the per-class config serialization,
which rewrites the legacy type name warp to wireguard. -/
theorem C10_endpoint_view (e : Endpoint) :
    jlookup (endpointView e) "id" = some (.vnum e.id)
    ∧ jlookup (endpointView e) "type" = some (.vstr e.type)
    ∧ jlookup (endpointView e) "tag" = some (.vstr e.tag)
    ∧ jlookup (endpointView e) "ext" = some (.vraw e.ext)
    ∧ (e.type = "warp" → e.options = .nil → e.ext = .nil →
        endpointMarshal e
          = .ok [("type", .str "wireguard"), ("tag", .str e.tag)]) := by
  refine ⟨?_, ?_, ?_, ?_, ?_⟩
  · unfold endpointView
    rw [jlookup_jset_other _ _ _ _ (by rfl), jlookup_jset_other _ _ _ _ (by rfl),
      jlookup_jset_other _ _ _ _ (by rfl), jlookup_jset_self]
  · unfold endpointView
    rw [jlookup_jset_other _ _ _ _ (by rfl), jlookup_jset_other _ _ _ _ (by rfl),
      jlookup_jset_self]
  · unfold endpointView
    rw [jlookup_jset_other _ _ _ _ (by rfl), jlookup_jset_self]
  · unfold endpointView
    rw [jlookup_jset_self]
  · intro hwarp hopt hext
    rw [endpointMarshal, hopt, hext, hwarp]
    rfl

/-- An endpoint whose options bag tries to shadow every canonical
field. -/
def shadowingEndpoint : Endpoint :=
  { id := 3, type := "warp", tag := "wgp",
    options := .json (.obj [("id", .num 99), ("type", .str "fake"),
      ("tag", .str "sneaky"), ("ext", .str "zzz"), ("mtu", .num 1400)]),
    ext := .json (.obj [("license_key", .str "L1")]) }

/-- A warp endpoint with empty bags, for the marshal contrast. -/
def plainWarpEndpoint : Endpoint :=
  { id := 4, type := "warp", tag := "w2", options := .nil, ext := .nil }

/-- Witness for C10: the shadowing options lose to the canonical
fields in the list view, the stored type warp is reported verbatim,
and the config serialization of a warp endpoint reports wireguard. -/
theorem C10_endpoint_view_witness :
    jlookup (endpointView shadowingEndpoint) "id" = some (.vnum 3)
    ∧ jlookup (endpointView shadowingEndpoint) "type" = some (.vstr "warp")
    ∧ jlookup (endpointView shadowingEndpoint) "tag" = some (.vstr "wgp")
    ∧ jlookup (endpointView shadowingEndpoint) "ext"
        = some (.vraw (.json (.obj [("license_key", .str "L1")])))
    ∧ endpointMarshal plainWarpEndpoint
        = .ok [("type", .str "wireguard"), ("tag", .str "w2")] :=
  ⟨(C10_endpoint_view shadowingEndpoint).1,
   (C10_endpoint_view shadowingEndpoint).2.1,
   (C10_endpoint_view shadowingEndpoint).2.2.1,
   (C10_endpoint_view shadowingEndpoint).2.2.2.1,
   (C10_endpoint_view plainWarpEndpoint).2.2.2.2 rfl rfl rfl⟩

/-! ## Claim C3: client update on inbound deletion -/

/-- Claim C3 (amended): the inbound-deletion client update removes from
a linked client's descriptor list exactly the descriptors whose remark
equals the deleted inbound's tag, regardless of their origin; every
descriptor with a different remark — local or external — is preserved
verbatim in order, and the deleted id is dropped from the client's
inbound set. -/
theorem C3_delete_filters_by_remark (id : Nat) (tag : String) (c : Client)
    (ls : List (List (String × String))) (ids : List Nat)
    (hls : parseLinks c.links = .ok ls)
    (hids : parseInboundIds c.inbounds = .ok ids) :
    clientOnInboundDelete id tag c
      = .ok { c with
          inbounds := marshalInboundIds (ids.filter (fun i => i != id)),
          links := marshalLinks (ls.filter (fun d => lget d "remark" != tag)) }
    ∧ ∀ d, d ∈ ls.filter (fun d2 => lget d2 "remark" != tag)
        ↔ (d ∈ ls ∧ lget d "remark" ≠ tag) := by
  constructor
  · cases hr : c.inbounds with
    | nil => rw [hr] at hids; simp [parseInboundIds] at hids
    | malformed => rw [hr] at hids; simp [parseInboundIds] at hids
    | json v =>
        rw [hr] at hids
        cases hl : c.links with
        | malformed => rw [hl] at hls; simp [parseLinks] at hls
        | nil =>
            rw [hl] at hls
            simp only [parseLinks] at hls
            obtain rfl : ls = [] := by
              cases hls; rfl
            simp [clientOnInboundDelete, hr, hl, hids, linksOnInboundDelete]
        | json lv =>
            rw [hl] at hls
            simp [clientOnInboundDelete, hr, hl, hids, hls, linksOnInboundDelete]
  · intro d
    simp [List.mem_filter, bne_iff_ne]

/-- A client linked to inbound 1 holding one local and one external
descriptor, both remarked with the inbound's tag. -/
def c3client : Client :=
  { id := 9, enable := true, name := "alice",
    inbounds := marshalInboundIds [1, 2],
    links := marshalLinks
      [[("remark", "in1"), ("type", "local"), ("uri", "vmess://a")],
       [("remark", "in1"), ("type", "external"), ("uri", "vless://b")],
       [("remark", "other"), ("type", "external"), ("uri", "trojan://c")]],
    config := .nil }

/-- Counterexample for C3: deleting inbound 1 (tag in1) drops the
externally supplied descriptor remarked in1 as well — the origin is
never consulted — so only the differently-remarked descriptor
survives. -/
theorem C3_delete_counterexample :
    updateClientsOnInboundDelete [c3client] 1 "in1"
      = .ok [{ c3client with
          inbounds := marshalInboundIds [2],
          links := marshalLinks
            [[("remark", "other"), ("type", "external"), ("uri", "trojan://c")]] }]
    ∧ parseLinks (marshalLinks
        [[("remark", "in1"), ("type", "external"), ("uri", "vless://b")]])
      ≠ .ok [] := by
  exact ⟨rfl, by simp [parseLinks_marshalLinks]⟩

/-- Witness for C3 (amended): the same client, settled through the
amended theorem. -/
theorem C3_delete_witness :
    clientOnInboundDelete 1 "in1" c3client
      = .ok { c3client with
          inbounds := marshalInboundIds [2],
          links := marshalLinks
            [[("remark", "other"), ("type", "external"), ("uri", "trojan://c")]] } := by
  have h := (C3_delete_filters_by_remark 1 "in1" c3client
    [[("remark", "in1"), ("type", "local"), ("uri", "vmess://a")],
     [("remark", "in1"), ("type", "external"), ("uri", "vless://b")],
     [("remark", "other"), ("type", "external"), ("uri", "trojan://c")]]
    [1, 2] (by rfl) (by rfl)).1
  exact h

/-! ## Claim C9: config assembly array counts -/

theorem endpointGetAllConfig_length (store : List Endpoint)
    (l : List (List (String × JVal))) (h : endpointGetAllConfig store = .ok l) :
    l.length = store.length := by
  induction store generalizing l with
  | nil =>
      simp only [endpointGetAllConfig] at h
      cases h; rfl
  | cons e rest ih =>
      simp only [endpointGetAllConfig] at h
      cases hm : endpointMarshal e with
      | error msg => simp only [hm] at h; cases h
      | ok j =>
          simp only [hm] at h
          cases hr : endpointGetAllConfig rest with
          | error msg => simp only [hr] at h; cases h
          | ok tail =>
              simp only [hr] at h
              cases h
              simp [ih tail hr]

theorem inboundGetAllConfig_length (marshal : Inbound → Except String JVal)
    (addUsers : JVal → Nat → String → Except String JVal)
    (store : List Inbound) (l : List JVal)
    (h : inboundGetAllConfig marshal addUsers store = .ok l) :
    l.length = store.length := by
  induction store generalizing l with
  | nil =>
      simp only [inboundGetAllConfig] at h
      cases h; rfl
  | cons i rest ih =>
      simp only [inboundGetAllConfig] at h
      cases hm : marshal i with
      | error msg => simp only [hm] at h; cases h
      | ok doc =>
          simp only [hm] at h
          cases hu : addUsers doc i.id i.type with
          | error msg => simp only [hu] at h; cases h
          | ok doc2 =>
              simp only [hu] at h
              cases hr : inboundGetAllConfig marshal addUsers rest with
              | error msg => simp only [hr] at h; cases h
              | ok tail =>
                  simp only [hr] at h
                  cases h
                  simp [ih tail hr]

theorem outboundGetAllConfig_length (store : List Outbound) :
    (outboundGetAllConfig store).length
      = (store.filter (fun ob => exceptOk (outboundMarshal ob))).length := by
  induction store with
  | nil => rfl
  | cons o rest ih =>
      cases hm : outboundMarshal o <;>
        simp [outboundGetAllConfig, hm, exceptOk, List.filter_cons, ih]

/-- Claim C9 (amended): on a successful assembly the inbounds and
endpoints arrays have exactly one element per stored row of their
class, while the outbounds array has one element per stored row whose
serialization succeeds — records whose options fail to serialize are
skipped, so its count can fall short of the row count. -/
theorem C9_assembly_counts (o : Oracles) (st : Store) (base : RawMsg)
    (cfg : SingBoxConfig) (h : getConfig o st base = .ok cfg) :
    cfg.inbounds.length = st.inbounds.length
    ∧ cfg.endpoints.length = st.endpoints.length
    ∧ cfg.outbounds.length
        = (st.outbounds.filter (fun ob => exceptOk (outboundMarshal ob))).length := by
  unfold getConfig at h
  cases h1 : unmarshalSingBox base with
  | error e => simp only [h1] at h; cases h
  | ok cfg0 =>
      simp only [h1] at h
      cases h2 : inboundGetAllConfig o.inb.marshal o.inb.addUsers st.inbounds with
      | error e => simp only [h2] at h; cases h
      | ok inb =>
          simp only [h2] at h
          cases h3 : endpointGetAllConfig st.endpoints with
          | error e => simp only [h3] at h; cases h
          | ok endp =>
              simp only [h3] at h
              cases h
              refine ⟨inboundGetAllConfig_length _ _ _ _ h2, ?_, ?_⟩
              · simpa using endpointGetAllConfig_length _ _ h3
              · simpa using outboundGetAllConfig_length st.outbounds

/-- An outbound whose stored options are bytes that no longer parse. -/
def corruptOutbound : Outbound :=
  { id := 1, type := "direct", tag := "out1", options := .malformed }

/-- A store holding exactly the one corrupt outbound. -/
def c9store : Store := { emptyStore with outbounds := [corruptOutbound] }

/-- The document assembled over that store. -/
def c9cfg : SingBoxConfig :=
  { log := .null, dns := .null, ntp := .null, route := .null,
    experimental := .null, inbounds := [], outbounds := [], endpoints := [] }

/-- Counterexample for C9: assembly succeeds, yet the outbounds array
is empty while the outbound class holds one row — the record whose
serialization fails is silently skipped. -/
theorem C9_assembly_counterexample :
    getConfig stubOracles c9store (.json .null) = .ok c9cfg
    ∧ c9cfg.outbounds.length = 0
    ∧ c9store.outbounds.length = 1 :=
  ⟨rfl, rfl, rfl⟩

/-- An outbound that serializes cleanly. -/
def directOutbound : Outbound :=
  { id := 2, type := "direct", tag := "d1", options := .nil }

/-- Witness for C9 (amended): a store whose records all serialize has
matching counts in every class. -/
theorem C9_assembly_counts_witness :
    ∃ cfg, getConfig stubOracles
        { emptyStore with outbounds := [directOutbound],
                          inbounds := [vmessInbound] } (.json .null) = .ok cfg
      ∧ cfg.inbounds.length = 1 ∧ cfg.endpoints.length = 0
      ∧ cfg.outbounds.length = 1 := by
  refine ⟨_, rfl, ?_⟩
  have h := C9_assembly_counts stubOracles
    { emptyStore with outbounds := [directOutbound], inbounds := [vmessInbound] }
    (.json .null) _ rfl
  exact ⟨h.1, h.2.1, h.2.2⟩

/-! ## Claim C8: settings validation and coercion -/

theorem ensureSlashes_bounds (value : String) :
    (ensureSlashes value).data.head? = some (Char.ofNat 47)
    ∧ (ensureSlashes value).data.getLast? = some (Char.ofNat 47) := by
  have main : ∀ l : List Char, l.head? = some (Char.ofNat 47) →
      (if (l.getLast? == some (Char.ofNat 47)) = true then l
        else l ++ [Char.ofNat 47]).head? = some (Char.ofNat 47)
      ∧ (if (l.getLast? == some (Char.ofNat 47)) = true then l
        else l ++ [Char.ofNat 47]).getLast? = some (Char.ofNat 47) := by
    intro l hh
    cases hb : l.getLast? == some (Char.ofNat 47) with
    | true => simp only [hb, if_true]; exact ⟨hh, by simpa using hb⟩
    | false =>
        simp only [hb, Bool.false_eq_true, if_false]
        refine ⟨?_, List.getLast?_concat _⟩
        cases l with
        | nil => simp at hh
        | cons x xs =>
            simp only [List.head?_cons, Option.some.injEq] at hh
            simp [hh]
  unfold ensureSlashes
  cases hd : value.data with
  | nil => exact ⟨rfl, rfl⟩
  | cons c rest =>
      have hh : (if (c == Char.ofNat 47) = true then c :: rest
          else Char.ofNat 47 :: c :: rest).head? = some (Char.ofNat 47) := by
        cases hc : c == Char.ofNat 47 with
        | true =>
            have : c = Char.ofNat 47 := by simpa using hc
            simp [this]
        | false => simp [hc]
      simpa using main _ hh

theorem C8_unknown_key_rejected (locOk : String → Bool) (settings : Settings)
    (k value : String) (h : defaultKeys.contains k = false) :
    exceptOk (settingUpdate locOk settings k value) = false := by
  have hne : ∀ s : String, s ∈ defaultKeys → (k == s) = false := by
    intro s hs
    cases hq : k == s with
    | false => rfl
    | true =>
        exfalso
        have hk : k = s := by simpa using hq
        subst hk
        have hc2 : defaultKeys.contains k = true := List.elem_eq_true_of_mem hs
        rw [hc2] at h
        simp at h
  have e1 := hne "webPort" (by decide)
  have e2 := hne "sessionMaxAge" (by decide)
  have e3 := hne "trafficAge" (by decide)
  have e4 := hne "subPort" (by decide)
  have e5 := hne "subUpdates" (by decide)
  have e6 := hne "subEncode" (by decide)
  have e7 := hne "subShowInfo" (by decide)
  have e8 := hne "webPath" (by decide)
  have e9 := hne "subPath" (by decide)
  have e10 := hne "timeLocation" (by decide)
  have e11 := hne "webListen" (by decide)
  have e12 := hne "webDomain" (by decide)
  have e13 := hne "webCertFile" (by decide)
  have e14 := hne "webKeyFile" (by decide)
  have e15 := hne "webURI" (by decide)
  have e16 := hne "secret" (by decide)
  have e17 := hne "subListen" (by decide)
  have e18 := hne "subDomain" (by decide)
  have e19 := hne "subCertFile" (by decide)
  have e20 := hne "subKeyFile" (by decide)
  have e21 := hne "subURI" (by decide)
  have e22 := hne "subJsonExt" (by decide)
  have hmem : k ∉ defaultKeys := by
    intro hm
    have hc2 : defaultKeys.contains k = true := List.elem_eq_true_of_mem hm
    rw [hc2] at h
    simp at h
  simp [settingUpdate, e1, e2, e3, e4, e5, e6, e7, e8, e9, e10, e11, e12, e13,
    e14, e15, e16, e17, e18, e19, e20, e21, e22, hmem, exceptOk]

/-- Claim C8 (amended): every settings save validates and coerces each
key per its registry entry before upsert — integer keys fail hard on
unparsable values, boolean keys fail hard on unparsable values, path
keys are normalized to carry a leading and a trailing slash, keys
outside the registry are rejected — but the locale key does not fall
back to its default: an invalid time location is a hard error on save
(the fallback applies only on read). -/
theorem C8_setting_update (locOk : String → Bool) (settings : Settings)
    (k value : String) :
    (k ∈ ["webPort", "sessionMaxAge", "trafficAge", "subPort", "subUpdates"] →
      parseGoInt value = none →
      exceptOk (settingUpdate locOk settings k value) = false)
    ∧ (k ∈ ["webPort", "sessionMaxAge", "trafficAge", "subPort", "subUpdates"] →
        ∀ i, parseGoInt value = some i →
        settingUpdate locOk settings k value
          = .ok (saveSetting settings k (toString i)))
    ∧ (k ∈ ["subEncode", "subShowInfo"] → parseGoBool value = none →
        exceptOk (settingUpdate locOk settings k value) = false)
    ∧ (k ∈ ["webPath", "subPath"] →
        settingUpdate locOk settings k value
          = .ok (saveSetting settings k (ensureSlashes value))
        ∧ (ensureSlashes value).data.head? = some (Char.ofNat 47)
        ∧ (ensureSlashes value).data.getLast? = some (Char.ofNat 47))
    ∧ (locOk value = false →
        exceptOk (settingUpdate locOk settings "timeLocation" value) = false)
    ∧ (locOk value = true →
        settingUpdate locOk settings "timeLocation" value
          = .ok (saveSetting settings "timeLocation" value))
    ∧ (defaultKeys.contains k = false →
        exceptOk (settingUpdate locOk settings k value) = false) := by
  refine ⟨?_, ?_, ?_, ?_, ?_, ?_, C8_unknown_key_rejected locOk settings k value⟩
  · intro hk hp
    fin_cases hk <;> simp [settingUpdate, hp, exceptOk]
  · intro hk i hp
    fin_cases hk <;> simp [settingUpdate, hp]
  · intro hk hp
    fin_cases hk <;> simp [settingUpdate, hp, exceptOk]
  · intro hk
    refine ⟨?_, ensureSlashes_bounds value⟩
    fin_cases hk <;> simp [settingUpdate]
  · intro hloc
    simp [settingUpdate, hloc, exceptOk]
  · intro hloc
    simp [settingUpdate, hloc]

/-- A locale oracle that rejects every name (the behaviour of
`time.LoadLocation` on an unknown zone). -/
def rejectAllLocales : String → Bool := fun _ => false

/-- Counterexample for C8: saving an invalid time location is a hard
error — the value is not replaced by the registry default, and nothing
is upserted. -/
theorem C8_time_location_counterexample :
    settingUpdate rejectAllLocales [] "timeLocation" "Mars/Olympus"
      = .error "invalid time location Mars/Olympus" := rfl

/-- Witness for C8 (amended): each coercion branch at concrete
inputs. -/
theorem C8_setting_update_witness :
    exceptOk (settingUpdate rejectAllLocales [] "webPort" "eighty") = false
    ∧ settingUpdate rejectAllLocales [] "webPort" "8080"
        = .ok (saveSetting [] "webPort" "8080")
    ∧ exceptOk (settingUpdate rejectAllLocales [] "subEncode" "yes") = false
    ∧ settingUpdate rejectAllLocales [] "webPath" "app"
        = .ok (saveSetting [] "webPath" "/app/")
    ∧ exceptOk (settingUpdate rejectAllLocales [] "timeLocation" "Mars/Olympus")
        = false
    ∧ exceptOk (settingUpdate rejectAllLocales [] "nonsenseKey" "1") = false := by
  refine ⟨(C8_setting_update rejectAllLocales [] "webPort" "eighty").1
      (by decide) rfl,
    ?_,
    (C8_setting_update rejectAllLocales [] "subEncode" "yes").2.2.1
      (by decide) rfl,
    ?_,
    (C8_setting_update rejectAllLocales [] "timeLocation" "Mars/Olympus").2.2.2.2.1
      rfl,
    (C8_setting_update rejectAllLocales [] "nonsenseKey" "1").2.2.2.2.2.2
      (by decide)⟩
  · exact (C8_setting_update rejectAllLocales [] "webPort" "8080").2.1
      (by decide) 8080 rfl
  · have h := ((C8_setting_update rejectAllLocales [] "webPath" "app").2.2.2.1
      (by decide)).1
    simpa using h

/-! ## Claim C4: removal failure during an inbound edit -/

/-- Claim C4 (amended): when a live core is running and an inbound is
saved with action edit, a RemoveInbound failure on the previous tag
other than the distinguished not-found condition aborts the save with
an error, and the AddInbound step is never reached; only the not-found
condition is tolerated, after which processing continues to the
AddInbound step. -/
theorem C4_remove_error_aborts (p : InbOracles) (core : CoreOps)
    (tlsStore : List (Nat × JVal)) (store : List Inbound) (data : JVal)
    (initUserIds hostname : String) (inb0 inb2 : Inbound)
    (store2 : List Inbound) (savedId : Nat) (row : Inbound)
    (hrun : core.running = true)
    (hun : inboundUnmarshal data = .ok inb0)
    (hfill : p.fillOutJson
      (if inb0.tlsId > 0 then
        { inb0 with tls := (jnlookup tlsStore inb0.tlsId).getD .null }
      else inb0) hostname = .ok inb2)
    (hup : upsertInbound store inb2 = .ok (store2, savedId))
    (hfind : store2.find? (fun i => i.id == savedId) = some row)
    (htag : (row.tag == "") = false) :
    (∀ msg, core.removeInbound row.tag = .err msg →
      inboundSave p core tlsStore store "edit" data initUserIds hostname
        = ([CoreCall.removeInb row.tag],
           .error ("failed to remove old inbound from core: " ++ msg)))
    ∧ (core.removeInbound row.tag = .notFound →
       ∀ doc doc2, p.marshal { inb2 with id := savedId } = .ok doc →
         p.addUsers doc savedId inb2.type = .ok doc2 →
         (inboundSave p core tlsStore store "edit" data initUserIds
           hostname).1
           = [CoreCall.removeInb row.tag, CoreCall.addInb inb2.tag]) := by
  constructor
  · intro msg hrem
    simp [inboundSave, hun, hfill, hup, hrun, hfind, htag, hrem, bne]
  · intro hrem doc doc2 hm hu
    simp only [inboundSave, hun, hfill, hup, hrun, hfind, htag, hrem, hm, hu, bne]
    cases hadd : core.addInbound inb2.tag <;>
      simp [hrun, hfind, htag, hrem, hadd, hm, hu, bne]

/-- A live core whose RemoveInbound always fails with a hard error. -/
def removeFailingCore : CoreOps where
  running := true
  removeEndpoint := fun _ => .ok
  addEndpoint := fun _ => .ok
  removeOutbound := fun _ => .ok
  addOutbound := fun _ => .ok
  removeInbound := fun _ => .err "boom"
  addInbound := fun _ => .ok

/-- The edit payload re-saving the stored inbound under its tag. -/
def c4data : JVal :=
  .obj [("id", .num 1), ("type", .str "vmess"), ("tag", .str "in1")]

/-- Counterexample for C4: the removal failure is not merely logged —
the edit save fails with the wrapped removal error and the AddInbound
step is never reached. -/
theorem C4_remove_error_counterexample :
    inboundSave passiveInbOracles removeFailingCore [] [vmessInbound] "edit"
      c4data "" "host"
      = ([CoreCall.removeInb "in1"],
         .error "failed to remove old inbound from core: boom")
    ∧ exceptOk (inboundSave passiveInbOracles removeFailingCore [] [vmessInbound]
        "edit" c4data "" "host").2 = false := ⟨rfl, rfl⟩

/-- A live core whose RemoveInbound reports the tolerated not-found
condition. -/
def removeNotFoundCore : CoreOps where
  running := true
  removeEndpoint := fun _ => .ok
  addEndpoint := fun _ => .ok
  removeOutbound := fun _ => .ok
  addOutbound := fun _ => .ok
  removeInbound := fun _ => .notFound
  addInbound := fun _ => .ok

/-- Witness for C4 (amended): the hard removal failure aborts the
concrete edit, while the not-found condition lets the same edit proceed
to the AddInbound step. -/
theorem C4_remove_error_witness :
    inboundSave passiveInbOracles removeFailingCore [] [vmessInbound] "edit"
      c4data "" "host"
      = ([CoreCall.removeInb "in1"],
         .error "failed to remove old inbound from core: boom")
    ∧ (inboundSave passiveInbOracles removeNotFoundCore [] [vmessInbound] "edit"
        c4data "" "host").1
      = [CoreCall.removeInb "in1", CoreCall.addInb "in1"] := by
  have h1 := (C4_remove_error_aborts passiveInbOracles removeFailingCore []
    [vmessInbound] c4data "" "host"
    { id := 1, type := "vmess", tag := "in1", tlsId := 0, tls := .null,
      options := .json (.obj []), outJson := .nil }
    { id := 1, type := "vmess", tag := "in1", tlsId := 0, tls := .null,
      options := .json (.obj []), outJson := .nil }
    [{ id := 1, type := "vmess", tag := "in1", tlsId := 0, tls := .null,
       options := .json (.obj []), outJson := .nil }]
    1
    { id := 1, type := "vmess", tag := "in1", tlsId := 0, tls := .null,
      options := .json (.obj []), outJson := .nil }
    rfl rfl rfl rfl rfl rfl).1 "boom" rfl
  have h2 := (C4_remove_error_aborts passiveInbOracles removeNotFoundCore []
    [vmessInbound] c4data "" "host"
    { id := 1, type := "vmess", tag := "in1", tlsId := 0, tls := .null,
      options := .json (.obj []), outJson := .nil }
    { id := 1, type := "vmess", tag := "in1", tlsId := 0, tls := .null,
      options := .json (.obj []), outJson := .nil }
    [{ id := 1, type := "vmess", tag := "in1", tlsId := 0, tls := .null,
       options := .json (.obj []), outJson := .nil }]
    1
    { id := 1, type := "vmess", tag := "in1", tlsId := 0, tls := .null,
      options := .json (.obj []), outJson := .nil }
    rfl rfl rfl rfl rfl rfl).2 rfl .null .null rfl rfl
  exact ⟨h1, h2⟩

/-! ## Claim C1: the peer-endpoint address-range conflict check -/

theorem findShared_some_spec (existing newIPs : List String) (ip : String)
    (h : findShared existing newIPs = some ip) :
    ip ∈ existing ∧ ip ∈ newIPs := by
  induction existing with
  | nil => simp [findShared] at h
  | cons x rest ih =>
      by_cases hc : newIPs.contains x = true
      · simp only [findShared, hc, if_true, Option.some.injEq] at h
        subst h
        exact ⟨List.mem_cons_self _ _, List.mem_of_elem_eq_true hc⟩
      · simp only [Bool.not_eq_true] at hc
        simp only [findShared, hc, Bool.false_eq_true, if_false] at h
        obtain ⟨h1, h2⟩ := ih h
        exact ⟨List.mem_cons_of_mem _ h1, h2⟩

theorem findShared_none_spec (existing newIPs : List String)
    (h : findShared existing newIPs = none) :
    ∀ s ∈ existing, s ∉ newIPs := by
  induction existing with
  | nil => intro s hs; simp at hs
  | cons x rest ih =>
      intro s hs
      by_cases hc : newIPs.contains x = true
      · have hmx : x ∈ newIPs := List.mem_of_elem_eq_true hc
        simp [findShared, hmx] at h
      · simp only [Bool.not_eq_true] at hc
        simp only [findShared, hc, Bool.false_eq_true, if_false] at h
        rcases List.mem_cons.mp hs with rfl | hmem
        · intro habs
          exact absurd (List.elem_eq_true_of_mem habs) (by simpa using hc)
        · exact ih h s hmem

/-- The shape of an endpoint that clashes with the candidate's
allowed-ip strings: peer-capable, extractable, and sharing a
string-equal entry. -/
def SharesIp (newIPs : List String) (ep : Endpoint) : Prop :=
  isPeerType ep.type = true
  ∧ ∃ l, extractAllowedIPs ep.options = .ok l ∧ ∃ ip ∈ l, ip ∈ newIPs

theorem firstConflict_of_shared (newIPs : List String) (eps : List Endpoint)
    (h : ∃ ep ∈ eps, SharesIp newIPs ep) :
    ∃ ip tagC, firstConflict newIPs eps = .error (conflictMsg ip tagC)
      ∧ ∃ ep ∈ eps, isPeerType ep.type = true ∧ ep.tag = tagC
          ∧ ∃ l, extractAllowedIPs ep.options = .ok l ∧ ip ∈ l ∧ ip ∈ newIPs := by
  induction eps with
  | nil => obtain ⟨ep, hmem, _⟩ := h; simp at hmem
  | cons e rest ih =>
      by_cases hp : isPeerType e.type = true
      · cases hx : extractAllowedIPs e.options with
        | error msg =>
            have h2 : ∃ ep ∈ rest, SharesIp newIPs ep := by
              obtain ⟨ep, hmem, hsh⟩ := h
              rcases List.mem_cons.mp hmem with rfl | hmem2
              · obtain ⟨_, l, hl, _⟩ := hsh
                rw [hx] at hl
                cases hl
              · exact ⟨ep, hmem2, hsh⟩
            obtain ⟨ip, tagC, hfc, ep, hmem, hrest⟩ := ih h2
            refine ⟨ip, tagC, ?_, ep, List.mem_cons_of_mem _ hmem, hrest⟩
            simpa [firstConflict, hp, hx] using hfc
        | ok existing =>
            cases hf : findShared existing newIPs with
            | some ip =>
                obtain ⟨h1, h2⟩ := findShared_some_spec existing newIPs ip hf
                refine ⟨ip, e.tag, ?_, e, List.mem_cons_self _ _, hp, rfl,
                  existing, hx, h1, h2⟩
                simp [firstConflict, hp, hx, hf]
            | none =>
                have h2 : ∃ ep ∈ rest, SharesIp newIPs ep := by
                  obtain ⟨ep, hmem, hsh⟩ := h
                  rcases List.mem_cons.mp hmem with rfl | hmem2
                  · obtain ⟨_, l, hl, ip, hipl, hipnew⟩ := hsh
                    rw [hx] at hl
                    cases hl
                    exact absurd hipnew (findShared_none_spec _ _ hf ip hipl)
                  · exact ⟨ep, hmem2, hsh⟩
                obtain ⟨ip, tagC, hfc, ep, hmem, hrest⟩ := ih h2
                refine ⟨ip, tagC, ?_, ep, List.mem_cons_of_mem _ hmem, hrest⟩
                simpa [firstConflict, hp, hx, hf] using hfc
      · have h2 : ∃ ep ∈ rest, SharesIp newIPs ep := by
          obtain ⟨ep, hmem, hsh⟩ := h
          rcases List.mem_cons.mp hmem with rfl | hmem2
          · exact absurd hsh.1 hp
          · exact ⟨ep, hmem2, hsh⟩
        obtain ⟨ip, tagC, hfc, ep, hmem, hrest⟩ := ih h2
        refine ⟨ip, tagC, ?_, ep, List.mem_cons_of_mem _ hmem, hrest⟩
        simp only [Bool.not_eq_true] at hp
        simpa [firstConflict, hp] using hfc

/-- Claim C1 (amended): for every endpoint save with action new or edit
on a peer-endpoint (wireguard/warp) record, if any advertised address
range STRING in the candidate's options is string-equal to an entry of
some other stored wireguard/warp endpoint (excluding the record itself
on edit), the save returns a hard validation failure naming the
conflicting endpoint's tag — and performs no store write, since an
error leaves the transaction to be rolled back.  The check is exact
string comparison, not range intersection. -/
theorem C1_allowed_ip_conflict (warp : WarpOps) (core : CoreOps)
    (store : List Endpoint) (act : String) (data : JVal) (ep0 : Endpoint)
    (newIPs : List String)
    (hact : act = "new" ∨ act = "edit")
    (hun : endpointUnmarshal data = .ok ep0)
    (hpeer : isPeerType ep0.type = true)
    (htagne : (ep0.tag == "") = false)
    (hopts : endpointOptsCheck ep0 = .ok ())
    (htagchk : endpointTagCheck store act ep0 = .ok ())
    (hext : extractAllowedIPs ep0.options = .ok newIPs)
    (hconf : ∃ ep ∈ (if act == "edit" then
        store.filter (fun e2 => e2.id != ep0.id) else store),
      SharesIp newIPs ep) :
    ∃ ip tagC, endpointSave warp core store act data = .error (conflictMsg ip tagC)
      ∧ ∃ ep ∈ (if act == "edit" then
          store.filter (fun e2 => e2.id != ep0.id) else store),
        isPeerType ep.type = true ∧ ep.tag = tagC
          ∧ ∃ l, extractAllowedIPs ep.options = .ok l ∧ ip ∈ l ∧ ip ∈ newIPs := by
  have htypene : (ep0.type == "") = false := by
    cases hq : ep0.type == "" with
    | false => rfl
    | true =>
        exfalso
        have : ep0.type = "" := by simpa using hq
        rw [this] at hpeer
        simp [isPeerType] at hpeer
  have hnonempty : newIPs.isEmpty = false := by
    obtain ⟨ep, _, _, l, _, ip, _, hipnew⟩ := hconf
    cases hq : newIPs.isEmpty with
    | false => rfl
    | true =>
        exfalso
        have : newIPs = [] := by simpa using hq
        rw [this] at hipnew
        simp at hipnew
  obtain ⟨ip, tagC, hfc, hdetail⟩ := firstConflict_of_shared newIPs _ hconf
  have hcc : conflictCheck store act ep0 = .error (conflictMsg ip tagC) := by
    unfold conflictCheck
    rw [if_pos hpeer, hext]
    simp only [hnonempty, Bool.false_eq_true, if_false]
    exact hfc
  refine ⟨ip, tagC, ?_, hdetail⟩
  rcases hact with rfl | rfl <;>
    simp [endpointSave, hun, htypene, htagne, hopts, htagchk, hcc]

/-- A stored wireguard endpoint advertising 10.0.0.0/24. -/
def wgStored : Endpoint :=
  { id := 1, type := "wireguard", tag := "ep1",
    options := .json (.obj [("peers", .arr [.obj
      [("public_key", .str "PK1"), ("address", .str "1.2.3.4"),
       ("port", .num 51820), ("allowed_ips", .arr [.str "10.0.0.0/24"]),
       ("persistent_keepalive", .num 25)]])]),
    ext := .json .null }

/-- A candidate payload advertising 10.0.0.5/32: a strict subset of the
stored /24 range, but a different string. -/
def overlappingCandidate : JVal :=
  .obj [("type", .str "wireguard"), ("tag", .str "ep2"),
    ("peers", .arr [.obj
      [("public_key", .str "PK2"), ("address", .str "5.6.7.8"),
       ("port", .num 51821), ("allowed_ips", .arr [.str "10.0.0.5/32"]),
       ("persistent_keepalive", .num 25)]])]

/-- A candidate payload repeating the stored string 10.0.0.0/24. -/
def equalStringCandidate : JVal :=
  .obj [("type", .str "wireguard"), ("tag", .str "ep2"),
    ("peers", .arr [.obj
      [("public_key", .str "PK2"), ("address", .str "5.6.7.8"),
       ("port", .num 51821), ("allowed_ips", .arr [.str "10.0.0.0/24"]),
       ("persistent_keepalive", .num 25)]])]

/-- Counterexample for C1: 10.0.0.5/32 and 10.0.0.0/24 have a non-empty
intersection, yet the save of the candidate next to the stored /24
endpoint succeeds and writes a second record — the check compares
strings, not ranges. -/
theorem C1_intersection_counterexample :
    cidrIntersects "10.0.0.5/32" "10.0.0.0/24" = true
    ∧ exceptOk (endpointSave offlineWarp stoppedCore [wgStored] "new"
        overlappingCandidate) = true
    ∧ (endpointSave offlineWarp stoppedCore [wgStored] "new"
        overlappingCandidate).map List.length = .ok 2 := ⟨rfl, rfl, rfl⟩

/-- Witness for C1 (amended): the candidate repeating the stored string
is rejected with the conflict error naming ep1. -/
theorem C1_allowed_ip_conflict_witness :
    endpointSave offlineWarp stoppedCore [wgStored] "new" equalStringCandidate
      = .error (conflictMsg "10.0.0.0/24" "ep1") := by
  have h := C1_allowed_ip_conflict offlineWarp stoppedCore [wgStored] "new"
    equalStringCandidate
    { id := 0, type := "wireguard", tag := "ep2",
      options := .json (.obj [("peers", .arr [.obj
        [("public_key", .str "PK2"), ("address", .str "5.6.7.8"),
         ("port", .num 51821), ("allowed_ips", .arr [.str "10.0.0.0/24"]),
         ("persistent_keepalive", .num 25)]])]),
      ext := .json .null }
    ["10.0.0.0/24"]
    (Or.inl rfl) rfl rfl rfl rfl rfl rfl
    ⟨wgStored, by simp, rfl, ["10.0.0.0/24"], rfl, "10.0.0.0/24", by simp, by simp⟩
  obtain ⟨ip, tagC, hsave, ep, hmem, _, htagC, l, hl, hipl, _⟩ := h
  have hep : ep = wgStored := by
    simpa using hmem
  subst hep
  have hl2 : l = ["10.0.0.0/24"] := by
    rw [show extractAllowedIPs wgStored.options = .ok ["10.0.0.0/24"] from rfl] at hl
    cases hl
    rfl
  subst hl2
  have hip : ip = "10.0.0.0/24" := by simpa using hipl
  subst hip
  rw [hsave, ← htagC]
  rfl

/-! ## Claim C7: tag uniqueness machinery -/

/-- Well-formedness of an entity table: pairwise-distinct tags,
pairwise-distinct primary keys, and no zero primary key (the store's
auto-increment starts at one). -/
def wfTable {α : Type} (tagOf : α → String) (idOf : α → Nat) (l : List α) : Prop :=
  l.Pairwise (fun a b => tagOf a ≠ tagOf b)
  ∧ l.Pairwise (fun a b => idOf a ≠ idOf b)
  ∧ ∀ x ∈ l, idOf x ≠ 0

theorem le_foldl_max (l : List Nat) :
    ∀ a : Nat, a ≤ l.foldl max a ∧ ∀ x ∈ l, x ≤ l.foldl max a := by
  induction l with
  | nil => intro a; simp
  | cons y ys ih =>
      intro a
      refine ⟨le_trans (le_max_left a y) (ih (max a y)).1, ?_⟩
      intro x hx
      rcases List.mem_cons.mp hx with rfl | hmem
      · exact le_trans (le_max_right a x) (ih (max a x)).1
      · exact (ih (max a y)).2 x hmem

theorem map_noop {α : Type} (f : α → α) (l : List α) (h : ∀ a ∈ l, f a = a) :
    l.map f = l := by
  induction l with
  | nil => rfl
  | cons x rest ih =>
      simp only [List.map_cons, h x (List.mem_cons_self _ _),
        ih (fun a ha => h a (List.mem_cons_of_mem _ ha))]

theorem wf_append_fresh {α : Type} (tagOf : α → String) (idOf : α → Nat)
    (l : List α) (e : α) (hwf : wfTable tagOf idOf l)
    (htag : ∀ x ∈ l, tagOf x ≠ tagOf e)
    (hid : ∀ x ∈ l, idOf x ≠ idOf e)
    (hnz : idOf e ≠ 0) :
    wfTable tagOf idOf (l ++ [e]) := by
  obtain ⟨h1, h2, h3⟩ := hwf
  refine ⟨?_, ?_, ?_⟩
  · rw [List.pairwise_append]
    exact ⟨h1, List.pairwise_singleton _ _,
      fun a ha b hb => by simp at hb; subst hb; exact htag a ha⟩
  · rw [List.pairwise_append]
    exact ⟨h2, List.pairwise_singleton _ _,
      fun a ha b hb => by simp at hb; subst hb; exact hid a ha⟩
  · intro x hx
    rcases List.mem_append.mp hx with hmem | hmem
    · exact h3 x hmem
    · simp at hmem; subst hmem; exact hnz

theorem wf_replace {α : Type} (tagOf : α → String) (idOf : α → Nat)
    (l : List α) (e : α) (hwf : wfTable tagOf idOf l)
    (hnz : idOf e ≠ 0)
    (hOk : ∀ x ∈ l, idOf x ≠ idOf e → tagOf x ≠ tagOf e) :
    wfTable tagOf idOf (l.map (fun x => if idOf x == idOf e then e else x)) := by
  induction l with
  | nil => exact ⟨List.Pairwise.nil, List.Pairwise.nil, by simp⟩
  | cons x rest ih =>
      obtain ⟨h1, h2, h3⟩ := hwf
      obtain ⟨hx1, hrest1⟩ := List.pairwise_cons.mp h1
      obtain ⟨hx2, hrest2⟩ := List.pairwise_cons.mp h2
      have hwfr : wfTable tagOf idOf rest :=
        ⟨hrest1, hrest2, fun y hy => h3 y (List.mem_cons_of_mem _ hy)⟩
      have hOkr : ∀ y ∈ rest, idOf y ≠ idOf e → tagOf y ≠ tagOf e :=
        fun y hy => hOk y (List.mem_cons_of_mem _ hy)
      by_cases hx : (idOf x == idOf e) = true
      · have hxid : idOf x = idOf e := by simpa using hx
        have hmapid : rest.map (fun y => if idOf y == idOf e then e else y) = rest := by
          apply map_noop
          intro y hy
          have hne : idOf y ≠ idOf e := fun hcontra => hx2 y hy (hxid.trans hcontra.symm)
          simp [beq_eq_false_iff_ne.mpr hne]
        simp only [List.map_cons, hx, if_true, hmapid]
        refine ⟨List.pairwise_cons.mpr ⟨?_, hrest1⟩,
          List.pairwise_cons.mpr ⟨?_, hrest2⟩, ?_⟩
        · intro y hy
          have hne : idOf y ≠ idOf e := fun hcontra => hx2 y hy (hxid.trans hcontra.symm)
          exact fun heq => hOkr y hy hne heq.symm
        · intro y hy
          exact fun heq => hx2 y hy (hxid.trans heq)
        · intro y hy
          rcases List.mem_cons.mp hy with rfl | hmem
          · exact hnz
          · exact h3 y (List.mem_cons_of_mem _ hmem)
      · have hxid : idOf x ≠ idOf e := by simpa using hx
        simp only [List.map_cons, hx, Bool.false_eq_true, if_false]
        obtain ⟨h1r, h2r, h3r⟩ := ih hwfr hOkr
        refine ⟨List.pairwise_cons.mpr ⟨?_, h1r⟩,
          List.pairwise_cons.mpr ⟨?_, h2r⟩, ?_⟩
        · intro y hy
          obtain ⟨z, hz, hzy⟩ := List.mem_map.mp hy
          by_cases hz2 : (idOf z == idOf e) = true
          · rw [if_pos hz2] at hzy
            subst hzy
            exact hOk x (List.mem_cons_self _ _) hxid
          · have hzf : (idOf z == idOf e) = false := by simpa using hz2
            rw [hzf] at hzy
            simp at hzy
            subst hzy
            exact hx1 z hz
        · intro y hy
          obtain ⟨z, hz, hzy⟩ := List.mem_map.mp hy
          by_cases hz2 : (idOf z == idOf e) = true
          · rw [if_pos hz2] at hzy
            subst hzy
            exact hxid
          · have hzf : (idOf z == idOf e) = false := by simpa using hz2
            rw [hzf] at hzy
            simp at hzy
            subst hzy
            exact hx2 z hz
        · intro y hy
          rcases List.mem_cons.mp hy with rfl | hmem
          · exact h3 y (List.mem_cons_self _ _)
          · exact h3r y hmem

theorem wf_filter {α : Type} (tagOf : α → String) (idOf : α → Nat)
    (l : List α) (p : α → Bool) (h : wfTable tagOf idOf l) :
    wfTable tagOf idOf (l.filter p) := by
  obtain ⟨h1, h2, h3⟩ := h
  exact ⟨h1.sublist (List.filter_sublist _),
    h2.sublist (List.filter_sublist _),
    fun x hx => h3 x (List.mem_of_mem_filter hx)⟩

theorem pairwise_tag_eq {α : Type} (tagOf : α → String) {l : List α} {a b : α}
    (h : l.Pairwise (fun x y => tagOf x ≠ tagOf y))
    (ha : a ∈ l) (hb : b ∈ l) (heq : tagOf a = tagOf b) : a = b := by
  induction l with
  | nil => simp at ha
  | cons x rest ih =>
      obtain ⟨hx, hrest⟩ := List.pairwise_cons.mp h
      rcases List.mem_cons.mp ha with rfl | hamem
      · rcases List.mem_cons.mp hb with rfl | hbmem
        · rfl
        · exact absurd heq (hx b hbmem)
      · rcases List.mem_cons.mp hb with rfl | hbmem
        · exact absurd heq.symm (hx a hamem)
        · exact ih hrest hamem hbmem

theorem upsertEndpoint_wf_aux (store : List Endpoint) (e : Endpoint)
    (hwf : wfTable Endpoint.tag Endpoint.id store)
    (hOk : ∀ ep ∈ store, ep.id ≠ e.id → ep.tag ≠ e.tag)
    (hOk0 : e.id = 0 → ∀ ep ∈ store, ep.tag ≠ e.tag) :
    wfTable Endpoint.tag Endpoint.id (upsertEndpoint store e) := by
  unfold upsertEndpoint
  by_cases h0 : (e.id == 0) = true
  · have h0eq : e.id = 0 := by simpa using h0
    rw [if_pos h0]
    apply wf_append_fresh _ _ _ _ hwf
    · intro x hx
      exact hOk0 h0eq x hx
    · intro x hx
      have hle := (le_foldl_max (store.map Endpoint.id) 0).2 x.id
        (List.mem_map.mpr ⟨x, hx, rfl⟩)
      show x.id ≠ (store.map Endpoint.id).foldl max 0 + 1
      omega
    · simp
  · have h0ne : e.id ≠ 0 := by simpa using h0
    rw [if_neg (by simpa using h0)]
    by_cases hex : store.any (fun ep => ep.id == e.id) = true
    · rw [if_pos hex]
      exact wf_replace _ _ _ _ hwf h0ne hOk
    · rw [if_neg hex]
      apply wf_append_fresh _ _ _ _ hwf
      · intro x hx
        apply hOk x hx
        intro heq
        exact hex (List.any_eq_true.mpr ⟨x, hx, by simp [heq]⟩)
      · intro x hx heq
        exact hex (List.any_eq_true.mpr ⟨x, hx, by simp [heq]⟩)
      · exact h0ne

theorem endpointTagCheck_wf (store : List Endpoint) (act : String) (e : Endpoint)
    (hwf : wfTable Endpoint.tag Endpoint.id store)
    (hchk : endpointTagCheck store act e = .ok ()) :
    wfTable Endpoint.tag Endpoint.id (upsertEndpoint store e) := by
  unfold endpointTagCheck at hchk
  by_cases hact : (act == "new") = true
  · rw [if_pos hact] at hchk
    have hnot : ∀ ep ∈ store, ep.tag ≠ e.tag := by
      by_cases hl : (store.filter (fun ep => ep.tag == e.tag)).length > 0
      · rw [if_pos hl] at hchk; cases hchk
      · intro ep hep heq
        apply hl
        have hmem : ep ∈ store.filter (fun ep => ep.tag == e.tag) :=
          List.mem_filter.mpr ⟨hep, by simp [heq]⟩
        exact List.length_pos.mpr (List.ne_nil_of_mem hmem)
    exact upsertEndpoint_wf_aux store e hwf (fun ep hep _ => hnot ep hep)
      (fun _ => hnot)
  · rw [if_neg hact] at hchk
    cases hfind : store.find? (fun ep => ep.id == e.id) with
    | none => rw [hfind] at hchk; cases hchk
    | some existing =>
        simp only [hfind] at hchk
        have hexid : existing.id = e.id := by
          have := List.find?_some hfind
          simpa using this
        have hexmem : existing ∈ store := List.mem_of_find?_eq_some hfind
        have henz : e.id ≠ 0 := hexid ▸ hwf.2.2 existing hexmem
        have hOk : ∀ ep ∈ store, ep.id ≠ e.id → ep.tag ≠ e.tag := by
          by_cases hteq : existing.tag ≠ e.tag
          · rw [if_pos hteq] at hchk
            by_cases hl : (store.filter
                (fun ep => ep.tag == e.tag && ep.id != e.id)).length > 0
            · rw [if_pos hl] at hchk; cases hchk
            · intro ep hep hidne heq
              apply hl
              have hmem : ep ∈ store.filter
                  (fun ep => ep.tag == e.tag && ep.id != e.id) :=
                List.mem_filter.mpr ⟨hep, by simp [heq, bne_iff_ne, hidne]⟩
              exact List.length_pos.mpr (List.ne_nil_of_mem hmem)
          · push_neg at hteq
            intro ep hep hidne heq
            have heq2 : ep.tag = existing.tag := heq.trans hteq.symm
            have : ep = existing := pairwise_tag_eq Endpoint.tag hwf.1 hep hexmem heq2
            subst this
            exact hidne hexid
        exact upsertEndpoint_wf_aux store e hwf hOk (fun h0 => absurd h0 henz)

theorem warpHandle_fields (warp : WarpOps) (store : List Endpoint) (act : String)
    (e e2 : Endpoint) (h : warpHandle warp store act e = .ok e2) :
    e2.tag = e.tag ∧ e2.id = e.id := by
  unfold warpHandle at h
  by_cases hw : (e.type == "warp") = true
  · rw [if_pos hw] at h
    by_cases hact : (act == "new") = true
    · rw [if_pos hact] at h
      cases hr : warp.register e with
      | error msg => rw [hr] at h; cases h
      | ok p =>
          rw [hr] at h
          cases h
          exact ⟨rfl, rfl⟩
    · rw [if_neg hact] at h
      cases hr : warp.setLicense (pluckLicense store e.id) e with
      | error msg => rw [hr] at h; cases h
      | ok u => rw [hr] at h; cases h; exact ⟨rfl, rfl⟩
  · rw [if_neg hw] at h
    cases h
    exact ⟨rfl, rfl⟩

theorem endpointTagCheck_congr (store : List Endpoint) (act : String)
    (e e2 : Endpoint) (ht : e2.tag = e.tag) (hi : e2.id = e.id) :
    endpointTagCheck store act e2 = endpointTagCheck store act e := by
  unfold endpointTagCheck
  rw [ht, hi]

theorem endpointSave_preserves_wf (warp : WarpOps) (core : CoreOps)
    (store : List Endpoint) (act : String) (data : JVal)
    (store2 : List Endpoint)
    (hwf : wfTable Endpoint.tag Endpoint.id store)
    (h : endpointSave warp core store act data = .ok store2) :
    wfTable Endpoint.tag Endpoint.id store2 := by
  unfold endpointSave at h
  by_cases hact : (act == "new" || act == "edit") = true
  · rw [if_pos hact] at h
    cases hun : endpointUnmarshal data with
    | error msg => simp only [hun] at h; cases h
    | ok ep0 =>
        simp only [hun] at h
        by_cases h1 : (ep0.type == "") = true
        · simp [h1] at h
        · simp only [h1, Bool.false_eq_true, if_false] at h
          by_cases h2 : (ep0.tag == "") = true
          · simp [h2] at h
          · simp only [h2, Bool.false_eq_true, if_false] at h
            cases h3 : endpointOptsCheck ep0 with
            | error msg => simp only [h3] at h; cases h
            | ok u =>
                simp only [h3] at h
                cases h4 : endpointTagCheck store act ep0 with
                | error msg => simp only [h4] at h; cases h
                | ok u2 =>
                    simp only [h4] at h
                    cases h5 : conflictCheck store act ep0 with
                    | error msg => simp only [h5] at h; cases h
                    | ok u3 =>
                        simp only [h5] at h
                        cases h6 : warpHandle warp store act ep0 with
                        | error msg => simp only [h6] at h; cases h
                        | ok ep1 =>
                            simp only [h6] at h
                            cases h7 : endpointCoreStep core store act ep1 with
                            | error msg => simp only [h7] at h; cases h
                            | ok u4 =>
                                simp only [h7] at h
                                cases h
                                obtain ⟨ht, hi⟩ :=
                                  warpHandle_fields warp store act ep0 ep1 h6
                                apply endpointTagCheck_wf store act ep1 hwf
                                rw [endpointTagCheck_congr store act ep0 ep1 ht hi]
                                cases u2
                                exact h4
  · rw [if_neg hact] at h
    by_cases hdel : (act == "del") = true
    · rw [if_pos hdel] at h
      cases hs : data.asStr with
      | none => simp only [hs] at h; cases h
      | some tag =>
          simp only [hs] at h
          cases hcs : (if core.running = true then
              match core.removeEndpoint tag with
              | .err msg => Except.error msg
              | _ => Except.ok ()
            else Except.ok ()) with
          | error msg => simp only [hcs] at h; cases h
          | ok u =>
              simp only [hcs] at h
              cases h
              exact wf_filter _ _ _ _ hwf
    · rw [if_neg hdel] at h
      cases h

theorem upsertOutbound_wf_aux (store : List Outbound) (o : Outbound)
    (hwf : wfTable Outbound.tag Outbound.id store)
    (hOk : ∀ ob ∈ store, ob.id ≠ o.id → ob.tag ≠ o.tag)
    (hOk0 : o.id = 0 → ∀ ob ∈ store, ob.tag ≠ o.tag) :
    wfTable Outbound.tag Outbound.id (upsertOutbound store o) := by
  unfold upsertOutbound
  by_cases h0 : (o.id == 0) = true
  · have h0eq : o.id = 0 := by simpa using h0
    rw [if_pos h0]
    apply wf_append_fresh _ _ _ _ hwf
    · intro x hx
      exact hOk0 h0eq x hx
    · intro x hx
      have hle := (le_foldl_max (store.map Outbound.id) 0).2 x.id
        (List.mem_map.mpr ⟨x, hx, rfl⟩)
      show x.id ≠ (store.map Outbound.id).foldl max 0 + 1
      omega
    · simp
  · have h0ne : o.id ≠ 0 := by simpa using h0
    rw [if_neg (by simpa using h0)]
    by_cases hex : store.any (fun ob => ob.id == o.id) = true
    · rw [if_pos hex]
      exact wf_replace _ _ _ _ hwf h0ne hOk
    · rw [if_neg hex]
      apply wf_append_fresh _ _ _ _ hwf
      · intro x hx
        apply hOk x hx
        intro heq
        exact hex (List.any_eq_true.mpr ⟨x, hx, by simp [heq]⟩)
      · intro x hx heq
        exact hex (List.any_eq_true.mpr ⟨x, hx, by simp [heq]⟩)
      · exact h0ne

theorem outboundTagCheck_wf (store : List Outbound) (act : String) (o : Outbound)
    (hwf : wfTable Outbound.tag Outbound.id store)
    (hchk : outboundTagCheck store act o = .ok ()) :
    wfTable Outbound.tag Outbound.id (upsertOutbound store o) := by
  unfold outboundTagCheck at hchk
  by_cases hact : (act == "edit") = true
  · simp only [hact, if_true] at hchk
    have hOk : ∀ ob ∈ store, ob.id ≠ o.id → ob.tag ≠ o.tag := by
      by_cases hl : (store.filter
          (fun ob => ob.tag == o.tag && ob.id != o.id)).length > 0
      · rw [if_pos hl] at hchk; cases hchk
      · intro ob hob hidne heq
        apply hl
        have hmem : ob ∈ store.filter
            (fun ob => ob.tag == o.tag && ob.id != o.id) :=
          List.mem_filter.mpr ⟨hob, by simp [heq, bne_iff_ne, hidne]⟩
        exact List.length_pos.mpr (List.ne_nil_of_mem hmem)
    refine upsertOutbound_wf_aux store o hwf hOk ?_
    intro h0 ob hob
    apply hOk ob hob
    intro heq
    exact hwf.2.2 ob hob (heq.trans h0)
  · simp only [hact, Bool.false_eq_true, if_false] at hchk
    have hnot : ∀ ob ∈ store, ob.tag ≠ o.tag := by
      by_cases hl : (store.filter (fun ob => ob.tag == o.tag)).length > 0
      · rw [if_pos hl] at hchk; cases hchk
      · intro ob hob heq
        apply hl
        have hmem : ob ∈ store.filter (fun ob => ob.tag == o.tag) :=
          List.mem_filter.mpr ⟨hob, by simp [heq]⟩
        exact List.length_pos.mpr (List.ne_nil_of_mem hmem)
    exact upsertOutbound_wf_aux store o hwf (fun ob hob _ => hnot ob hob)
      (fun _ => hnot)

theorem outboundSave_preserves_wf (core : CoreOps) (store : List Outbound)
    (act : String) (data : JVal) (store2 : List Outbound)
    (hwf : wfTable Outbound.tag Outbound.id store)
    (h : outboundSave core store act data = .ok store2) :
    wfTable Outbound.tag Outbound.id store2 := by
  unfold outboundSave at h
  by_cases hact : (act == "new" || act == "edit") = true
  · rw [if_pos hact] at h
    cases hun : outboundUnmarshal data with
    | error msg => simp only [hun] at h; cases h
    | ok ob =>
        simp only [hun] at h
        by_cases h1 : (ob.tag == "") = true
        · simp [h1] at h
        · simp only [h1, Bool.false_eq_true, if_false] at h
          cases h2 : outboundTagCheck store act ob with
          | error msg => simp only [h2] at h; cases h
          | ok u =>
              simp only [h2] at h
              by_cases hrun : core.running = true
              · simp only [hrun, if_true] at h
                cases h3 : outboundMarshal ob with
                | error msg => simp only [h3] at h; cases h
                | ok doc =>
                    simp only [h3] at h
                    cases h4 : core.addOutbound ob.tag with
                    | ok =>
                        simp only [h4] at h
                        cases h
                        cases u
                        exact outboundTagCheck_wf store act ob hwf h2
                    | notFound =>
                        simp only [h4] at h
                        cases h
                        cases u
                        exact outboundTagCheck_wf store act ob hwf h2
                    | err msg =>
                        simp only [h4] at h
                        cases h
              · simp only [hrun] at h
                simp only [Bool.false_eq_true, if_false] at h
                cases h
                cases u
                exact outboundTagCheck_wf store act ob hwf h2
  · rw [if_neg hact] at h
    by_cases hdel : (act == "del") = true
    · rw [if_pos hdel] at h
      cases hs : data.asStr with
      | none => simp only [hs] at h; cases h
      | some tag =>
          simp only [hs] at h
          by_cases h1 : (tag == "") = true
          · simp [h1] at h
          · simp only [h1, Bool.false_eq_true, if_false] at h
            cases h
            exact wf_filter _ _ _ _ hwf
    · rw [if_neg hdel] at h
      cases h

theorem upsertInbound_wf (store : List Inbound) (i : Inbound)
    (store2 : List Inbound) (savedId : Nat)
    (hwf : wfTable Inbound.tag Inbound.id store)
    (h : upsertInbound store i = .ok (store2, savedId)) :
    wfTable Inbound.tag Inbound.id store2 := by
  unfold upsertInbound at h
  by_cases h0 : (i.id == 0) = true
  · rw [if_pos h0] at h
    by_cases hany : store.any (fun inb => inb.tag == i.tag) = true
    · simp only [hany, if_true] at h
      cases h
    · simp only [hany, Bool.false_eq_true, if_false] at h
      cases h
      apply wf_append_fresh _ _ _ _ hwf
      · intro x hx heq
        exact hany (List.any_eq_true.mpr ⟨x, hx, by simp [heq]⟩)
      · intro x hx
        have hle := (le_foldl_max (store.map Inbound.id) 0).2 x.id
          (List.mem_map.mpr ⟨x, hx, rfl⟩)
        show x.id ≠ (store.map Inbound.id).foldl max 0 + 1
        omega
      · simp
  · rw [if_neg (by simpa using h0)] at h
    have h0ne : i.id ≠ 0 := by simpa using h0
    by_cases hdup : store.any (fun inb => inb.tag == i.tag && inb.id != i.id) = true
    · simp only [hdup, if_true] at h
      cases h
    · simp only [hdup, Bool.false_eq_true, if_false] at h
      have hOk : ∀ inb ∈ store, inb.id ≠ i.id → inb.tag ≠ i.tag := by
        intro inb hinb hidne heq
        exact hdup (List.any_eq_true.mpr ⟨inb, hinb,
          by simp [heq, bne_iff_ne, hidne]⟩)
      by_cases hex : store.any (fun inb => inb.id == i.id) = true
      · simp only [hex, if_true] at h
        cases h
        exact wf_replace _ _ _ _ hwf h0ne hOk
      · simp only [hex, Bool.false_eq_true, if_false] at h
        cases h
        apply wf_append_fresh _ _ _ _ hwf
        · intro x hx
          apply hOk x hx
          intro heq
          exact hex (List.any_eq_true.mpr ⟨x, hx, by simp [heq]⟩)
        · intro x hx heq
          exact hex (List.any_eq_true.mpr ⟨x, hx, by simp [heq]⟩)
        · exact h0ne

theorem inboundSave_preserves_wf (p : InbOracles) (core : CoreOps)
    (tlsStore : List (Nat × JVal)) (store : List Inbound) (act : String)
    (data : JVal) (initUserIds hostname : String) (store2 : List Inbound)
    (savedId : Nat)
    (hwf : wfTable Inbound.tag Inbound.id store)
    (h : (inboundSave p core tlsStore store act data initUserIds hostname).2
      = .ok (store2, savedId)) :
    wfTable Inbound.tag Inbound.id store2 := by
  unfold inboundSave at h
  by_cases hact : (act == "new" || act == "edit") = true
  · rw [if_pos hact] at h
    cases hun : inboundUnmarshal data with
    | error msg => simp only [hun] at h; cases h
    | ok inb0 =>
        simp only [hun] at h
        cases hfill : p.fillOutJson
            (if inb0.tlsId > 0 then
              { inb0 with tls := (jnlookup tlsStore inb0.tlsId).getD .null }
            else inb0) hostname with
        | error msg => simp only [hfill] at h; cases h
        | ok inb2 =>
            simp only [hfill] at h
            cases hup : upsertInbound store inb2 with
            | error msg => simp only [hup] at h; cases h
            | ok pr =>
                obtain ⟨storeU, idU⟩ := pr
                simp only [hup] at h
                by_cases hrun : core.running = true
                · simp only [hrun, if_true] at h
                  have hwfU := upsertInbound_wf store inb2 storeU idU hwf hup
                  -- every remaining core step either fails or passes storeU on
                  repeat' split at h
                  all_goals cases h
                  all_goals exact hwfU
                · simp only [hrun] at h
                  simp only [Bool.false_eq_true, if_false] at h
                  cases h
                  exact upsertInbound_wf store inb2 store2 savedId hwf hup
  · rw [if_neg hact] at h
    by_cases hdel : (act == "del") = true
    · rw [if_pos hdel] at h
      cases hs : data.asStr with
      | none => simp only [hs] at h; cases h
      | some tag =>
          simp only [hs] at h
          by_cases hrun : core.running = true
          · simp only [hrun, if_true] at h
            cases hrem : core.removeInbound tag with
            | err msg => simp only [hrem] at h; cases h
            | ok =>
                simp only [hrem] at h
                cases h
                exact wf_filter _ _ _ _ hwf
            | notFound =>
                simp only [hrem] at h
                cases h
                exact wf_filter _ _ _ _ hwf
          · simp only [hrun] at h
            simp only [Bool.false_eq_true, if_false] at h
            cases h
            exact wf_filter _ _ _ _ hwf
    · rw [if_neg hdel] at h
      cases h

/-- A sequence of endpoint save requests; a rejected save leaves the
table unchanged (the orchestrator rolls its transaction back). -/
def endpointSaveSeq (warp : WarpOps) (core : CoreOps) :
    List (String × JVal) → List Endpoint → List Endpoint
  | [], store => store
  | (act, data) :: rest, store =>
      match endpointSave warp core store act data with
      | .ok store2 => endpointSaveSeq warp core rest store2
      | .error _ => endpointSaveSeq warp core rest store

/-- A sequence of outbound save requests. -/
def outboundSaveSeq (core : CoreOps) :
    List (String × JVal) → List Outbound → List Outbound
  | [], store => store
  | (act, data) :: rest, store =>
      match outboundSave core store act data with
      | .ok store2 => outboundSaveSeq core rest store2
      | .error _ => outboundSaveSeq core rest store

/-- A sequence of inbound save requests. -/
def inboundSaveSeq (p : InbOracles) (core : CoreOps)
    (tlsStore : List (Nat × JVal)) (initUserIds hostname : String) :
    List (String × JVal) → List Inbound → List Inbound
  | [], store => store
  | (act, data) :: rest, store =>
      match (inboundSave p core tlsStore store act data initUserIds hostname).2 with
      | .ok (store2, _) => inboundSaveSeq p core tlsStore initUserIds hostname rest store2
      | .error _ => inboundSaveSeq p core tlsStore initUserIds hostname rest store

theorem endpointSaveSeq_wf (warp : WarpOps) (core : CoreOps)
    (ops : List (String × JVal)) (store : List Endpoint)
    (hwf : wfTable Endpoint.tag Endpoint.id store) :
    wfTable Endpoint.tag Endpoint.id (endpointSaveSeq warp core ops store) := by
  induction ops generalizing store with
  | nil => exact hwf
  | cons op rest ih =>
      obtain ⟨act, data⟩ := op
      unfold endpointSaveSeq
      cases hsv : endpointSave warp core store act data with
      | ok store2 =>
          exact ih store2 (endpointSave_preserves_wf warp core store act data
            store2 hwf hsv)
      | error msg => exact ih store hwf

theorem outboundSaveSeq_wf (core : CoreOps) (ops : List (String × JVal))
    (store : List Outbound)
    (hwf : wfTable Outbound.tag Outbound.id store) :
    wfTable Outbound.tag Outbound.id (outboundSaveSeq core ops store) := by
  induction ops generalizing store with
  | nil => exact hwf
  | cons op rest ih =>
      obtain ⟨act, data⟩ := op
      unfold outboundSaveSeq
      cases hsv : outboundSave core store act data with
      | ok store2 =>
          exact ih store2 (outboundSave_preserves_wf core store act data
            store2 hwf hsv)
      | error msg => exact ih store hwf

theorem inboundSaveSeq_wf (p : InbOracles) (core : CoreOps)
    (tlsStore : List (Nat × JVal)) (initUserIds hostname : String)
    (ops : List (String × JVal)) (store : List Inbound)
    (hwf : wfTable Inbound.tag Inbound.id store) :
    wfTable Inbound.tag Inbound.id
      (inboundSaveSeq p core tlsStore initUserIds hostname ops store) := by
  induction ops generalizing store with
  | nil => exact hwf
  | cons op rest ih =>
      obtain ⟨act, data⟩ := op
      unfold inboundSaveSeq
      cases hsv : (inboundSave p core tlsStore store act data initUserIds
          hostname).2 with
      | ok pr =>
          obtain ⟨store2, savedId⟩ := pr
          exact ih store2 (inboundSave_preserves_wf p core tlsStore store act
            data initUserIds hostname store2 savedId hwf hsv)
      | error msg => exact ih store hwf

theorem endpointNewDupRejected (warp : WarpOps) (core : CoreOps)
    (store : List Endpoint) (data : JVal) (e : Endpoint)
    (hun : endpointUnmarshal data = .ok e)
    (hdup : ∃ ep ∈ store, ep.tag = e.tag) :
    exceptOk (endpointSave warp core store "new" data) = false := by
  unfold endpointSave
  simp only [hun]
  by_cases h1 : (e.type == "") = true
  · simp [h1, exceptOk]
  · simp only [h1, Bool.false_eq_true, if_false]
    by_cases h2 : (e.tag == "") = true
    · simp [h1, h2, exceptOk]
    · obtain ⟨ep, hep, heq⟩ := hdup
      have hpos : (store.filter (fun ep => ep.tag == e.tag)).length > 0 :=
        List.length_pos.mpr (List.ne_nil_of_mem
          (List.mem_filter.mpr ⟨hep, by simp [heq]⟩))
      cases h3 : endpointOptsCheck e with
      | error msg => simp [h1, h2, h3, exceptOk]
      | ok u =>
          have htc : endpointTagCheck store "new" e
              = .error ("Endpoint tag " ++ e.tag ++ " already exists") := by
            unfold endpointTagCheck
            simp [hpos]
          simp [h1, h2, h3, htc, exceptOk]

theorem endpointEditCheckIff (store : List Endpoint) (e existing : Endpoint)
    (hfind : store.find? (fun ep => ep.id == e.id) = some existing)
    (hwf : wfTable Endpoint.tag Endpoint.id store) :
    endpointTagCheck store "edit" e = .ok ()
      ↔ ∀ ep ∈ store, ep.id ≠ e.id → ep.tag ≠ e.tag := by
  unfold endpointTagCheck
  rw [if_neg (by decide : ¬ ((("edit" : String) == "new") = true))]
  simp only [hfind]
  by_cases hteq : existing.tag = e.tag
  · rw [if_neg (not_not_intro hteq)]
    constructor
    · intro _ ep hep hidne heq
      have hexid : existing.id = e.id := by simpa using List.find?_some hfind
      have hexmem := List.mem_of_find?_eq_some hfind
      have hsame : ep = existing :=
        pairwise_tag_eq Endpoint.tag hwf.1 hep hexmem (heq.trans hteq.symm)
      subst hsame
      exact hidne hexid
    · intro _
      rfl
  · rw [if_pos hteq]
    constructor
    · intro hok
      by_cases hl : (store.filter
          (fun ep => ep.tag == e.tag && ep.id != e.id)).length > 0
      · rw [if_pos hl] at hok; cases hok
      · intro ep hep hidne heq
        exact hl (List.length_pos.mpr (List.ne_nil_of_mem
          (List.mem_filter.mpr ⟨hep, by simp [heq, bne_iff_ne, hidne]⟩)))
    · intro hall
      have hnl : ¬ (store.filter
          (fun ep => ep.tag == e.tag && ep.id != e.id)).length > 0 := by
        intro hpos
        obtain ⟨ep, hmem⟩ := List.exists_mem_of_ne_nil _
          (List.length_pos.mp hpos)
        obtain ⟨hep, hcond⟩ := List.mem_filter.mp hmem
        simp [bne_iff_ne] at hcond
        exact hall ep hep hcond.2 hcond.1
      rw [if_neg hnl]

theorem outboundNewDupRejected (core : CoreOps) (store : List Outbound)
    (data : JVal) (o : Outbound)
    (hun : outboundUnmarshal data = .ok o)
    (hdup : ∃ ob ∈ store, ob.tag = o.tag) :
    exceptOk (outboundSave core store "new" data) = false := by
  unfold outboundSave
  simp only [hun]
  obtain ⟨ob, hob, heq⟩ := hdup
  have hpos : (store.filter (fun ob => ob.tag == o.tag)).length > 0 :=
    List.length_pos.mpr (List.ne_nil_of_mem
      (List.mem_filter.mpr ⟨hob, by simp [heq]⟩))
  have htc : outboundTagCheck store "new" o
      = .error ("outbound tag " ++ o.tag ++ " already exists") := by
    unfold outboundTagCheck
    simp [hpos]
  by_cases h1 : (o.tag == "") = true
  · simp [h1, exceptOk]
  · simp [h1, htc, exceptOk]

theorem outboundEditCheckIff (store : List Outbound) (o : Outbound) :
    outboundTagCheck store "edit" o = .ok ()
      ↔ ∀ ob ∈ store, ob.id ≠ o.id → ob.tag ≠ o.tag := by
  unfold outboundTagCheck
  simp only [show (("edit" : String) == "edit") = true from rfl, if_true]
  constructor
  · intro hok
    by_cases hl : (store.filter
        (fun ob => ob.tag == o.tag && ob.id != o.id)).length > 0
    · rw [if_pos hl] at hok; cases hok
    · intro ob hob hidne heq
      exact hl (List.length_pos.mpr (List.ne_nil_of_mem
        (List.mem_filter.mpr ⟨hob, by simp [heq, bne_iff_ne, hidne]⟩)))
  · intro hall
    have hnl : ¬ (store.filter
        (fun ob => ob.tag == o.tag && ob.id != o.id)).length > 0 := by
      intro hpos
      obtain ⟨ob, hmem⟩ := List.exists_mem_of_ne_nil _ (List.length_pos.mp hpos)
      obtain ⟨hob, hcond⟩ := List.mem_filter.mp hmem
      simp [bne_iff_ne] at hcond
      exact hall ob hob hcond.2 hcond.1
    rw [if_neg hnl]

theorem inboundUpsertCheckIff (store : List Inbound) (i : Inbound) :
    exceptOk (upsertInbound store i) = true
      ↔ (if i.id = 0 then ∀ inb ∈ store, inb.tag ≠ i.tag
         else ∀ inb ∈ store, inb.id ≠ i.id → inb.tag ≠ i.tag) := by
  unfold upsertInbound
  by_cases h0 : (i.id == 0) = true
  · have h0eq : i.id = 0 := by simpa using h0
    rw [if_pos h0eq]
    simp only [h0, if_true]
    by_cases hany : store.any (fun inb => inb.tag == i.tag) = true
    · simp only [hany, if_true]
      constructor
      · intro habs; cases habs
      · intro hall
        exfalso
        obtain ⟨inb, hinb, htag⟩ := List.any_eq_true.mp hany
        exact hall inb hinb (by simpa using htag)
    · simp only [hany, Bool.false_eq_true, if_false]
      constructor
      · intro _ inb hinb heq
        exact hany (List.any_eq_true.mpr ⟨inb, hinb, by simp [heq]⟩)
      · intro _; rfl
  · have h0ne : i.id ≠ 0 := by simpa using h0
    rw [if_neg h0ne]
    simp only [h0, Bool.false_eq_true, if_false]
    by_cases hdup : store.any (fun inb => inb.tag == i.tag && inb.id != i.id) = true
    · simp only [hdup, if_true]
      constructor
      · intro habs; cases habs
      · intro hall
        exfalso
        obtain ⟨inb, hinb, hcond⟩ := List.any_eq_true.mp hdup
        simp [bne_iff_ne] at hcond
        exact hall inb hinb hcond.2 hcond.1
    · simp only [hdup, Bool.false_eq_true, if_false]
      constructor
      · intro _ inb hinb hidne heq
        exact hdup (List.any_eq_true.mpr ⟨inb, hinb,
          by simp [heq, bne_iff_ne, hidne]⟩)
      · intro _
        by_cases hex : store.any (fun inb => inb.id == i.id) = true
        · simp [hex, exceptOk]
        · simp [hex, exceptOk]

/-- Claim C7: after any sequence of save operations, tags remain unique
within each of the inbound, outbound and endpoint classes independently;
a new save whose tag equals an existing same-class record's tag is
rejected with no store write, and the edit-time duplicate check passes
exactly when no record other than the edited one (self-excluded by id)
holds the new tag. -/
theorem C7_tag_uniqueness :
    (∀ (warp : WarpOps) (core : CoreOps) (ops : List (String × JVal))
        (store : List Endpoint), wfTable Endpoint.tag Endpoint.id store →
      wfTable Endpoint.tag Endpoint.id (endpointSaveSeq warp core ops store))
    ∧ (∀ (core : CoreOps) (ops : List (String × JVal)) (store : List Outbound),
        wfTable Outbound.tag Outbound.id store →
        wfTable Outbound.tag Outbound.id (outboundSaveSeq core ops store))
    ∧ (∀ (p : InbOracles) (core : CoreOps) (tlsStore : List (Nat × JVal))
        (initUserIds hostname : String) (ops : List (String × JVal))
        (store : List Inbound), wfTable Inbound.tag Inbound.id store →
        wfTable Inbound.tag Inbound.id
          (inboundSaveSeq p core tlsStore initUserIds hostname ops store))
    ∧ (∀ (warp : WarpOps) (core : CoreOps) (store : List Endpoint)
        (data : JVal) (e : Endpoint), endpointUnmarshal data = .ok e →
        (∃ ep ∈ store, ep.tag = e.tag) →
        exceptOk (endpointSave warp core store "new" data) = false)
    ∧ (∀ (store : List Endpoint) (e existing : Endpoint),
        store.find? (fun ep => ep.id == e.id) = some existing →
        wfTable Endpoint.tag Endpoint.id store →
        (endpointTagCheck store "edit" e = .ok ()
          ↔ ∀ ep ∈ store, ep.id ≠ e.id → ep.tag ≠ e.tag))
    ∧ (∀ (core : CoreOps) (store : List Outbound) (data : JVal) (o : Outbound),
        outboundUnmarshal data = .ok o →
        (∃ ob ∈ store, ob.tag = o.tag) →
        exceptOk (outboundSave core store "new" data) = false)
    ∧ (∀ (store : List Outbound) (o : Outbound),
        outboundTagCheck store "edit" o = .ok ()
          ↔ ∀ ob ∈ store, ob.id ≠ o.id → ob.tag ≠ o.tag)
    ∧ (∀ (store : List Inbound) (i : Inbound),
        exceptOk (upsertInbound store i) = true
          ↔ (if i.id = 0 then ∀ inb ∈ store, inb.tag ≠ i.tag
             else ∀ inb ∈ store, inb.id ≠ i.id → inb.tag ≠ i.tag)) :=
  ⟨endpointSaveSeq_wf, outboundSaveSeq_wf, inboundSaveSeq_wf,
   endpointNewDupRejected, endpointEditCheckIff, outboundNewDupRejected,
   outboundEditCheckIff, inboundUpsertCheckIff⟩

/-- A second outbound payload reusing the tag d1. -/
def dupOutboundData : JVal :=
  .obj [("type", .str "block"), ("tag", .str "d1")]

/-- Witness for C7: a concrete save sequence keeps the endpoint table
well-formed, and a duplicate-tag outbound and endpoint are rejected on
concrete stores. -/
theorem C7_tag_uniqueness_witness :
    wfTable Endpoint.tag Endpoint.id
      (endpointSaveSeq offlineWarp stoppedCore
        [("new", overlappingCandidate), ("new", equalStringCandidate)] [wgStored])
    ∧ exceptOk (outboundSave stoppedCore [directOutbound] "new" dupOutboundData)
        = false
    ∧ (outboundTagCheck [directOutbound] "edit"
        { id := 2, type := "block", tag := "d1", options := .nil } = .ok ()
      ↔ ∀ ob ∈ [directOutbound], ob.id ≠ 2 → ob.tag ≠ "d1") := by
  refine ⟨C7_tag_uniqueness.1 offlineWarp stoppedCore _ [wgStored] ?_,
    C7_tag_uniqueness.2.2.2.2.2.1 stoppedCore [directOutbound] dupOutboundData
      { id := 0, type := "block", tag := "d1", options := .nil } rfl
      ⟨directOutbound, by simp, rfl⟩,
    C7_tag_uniqueness.2.2.2.2.2.2.1 [directOutbound]
      { id := 2, type := "block", tag := "d1", options := .nil }⟩
  exact ⟨List.pairwise_singleton _ _, List.pairwise_singleton _ _, by simp [wgStored]⟩

end SUI